import Mathlib

/-!
Verification development for the bulk modification engine of the bulk-editor app.

The engine lives in two route modules: the interactive bulk-edit wizard
(`app.bulk-edit` route, called "I" below) and the product-update webhook
automation handler (called "W" below).  Both are embedded shallowly:

* JavaScript strings are modeled as `List Char` (`Str`), so that all string
  operations are structurally recursive and kernel-computable.
* JavaScript numbers are modeled as exact decimals `Dec` (an integer mantissa
  over a power-of-ten denominator).  Every arithmetic operation the engine
  performs (+, -, scaling by (1 ± v/100), floor, round, max 0, comparisons)
  is closed over such decimals.  `NaN` is modeled as `none : Option Dec`;
  all relational comparisons against `none` are false, mirroring JS `NaN`.
  Binary-float rounding error and non-finite values (`Infinity`) are outside
  the model's scope; no claim below depends on them.
-/

/-- Character-list representation of a JavaScript string value. -/
abbrev Str := List Char

/-- Coerce a Lean string literal into the character-list representation. -/
def str (s : String) : Str := s.toList

/-- Whitespace test matching JavaScript's `\s` for the characters relevant to
`trim` and `parseFloat` (space, tab, newline, carriage return, vertical tab,
form feed). -/
def isWS (c : Char) : Bool :=
  c == ' ' || c == '\t' || c == '\n' || c == '\r' || c == '\x0b' || c == '\x0c'

/-- JavaScript `String.prototype.toLowerCase` (ASCII scope). -/
def jsLower (s : Str) : Str := s.map Char.toLower

/-- JavaScript `String.prototype.trim`. -/
def jsTrim (s : Str) : Str := ((s.dropWhile isWS).reverse.dropWhile isWS).reverse

/-- JavaScript `String.prototype.includes`. -/
def jsIncludes : Str → Str → Bool
  | [], sub => sub.isEmpty
  | c :: t, sub => sub.isPrefixOf (c :: t) || jsIncludes t sub

/-- JavaScript `s || d` for a string `s` (empty string is falsy). -/
def jsOrS (s d : Str) : Str := if s = [] then d else s

/-- JavaScript `s || d` where `s` may also be `null`/`undefined` (`none`). -/
def optOr (s : Option Str) (d : Str) : Str :=
  match s with
  | none => d
  | some v => if v = [] then d else v

/-- JavaScript falsiness of a string-or-null value. -/
def jsFalsy (s : Option Str) : Bool :=
  match s with
  | none => true
  | some v => v = []

/-- Fuel-driven worker for `splitNE` (structural recursion so the kernel can
evaluate it; the fuel never runs out when it starts at the input length). -/
def splitF (sep : Str) : Nat → Str → List Str
  | _, [] => [[]]
  | 0, _ :: _ => []
  | fuel + 1, c :: rest =>
    if sep ≠ [] ∧ sep.isPrefixOf (c :: rest) then
      [] :: splitF sep fuel (rest.drop (sep.length - 1))
    else
      match splitF sep fuel rest with
      | [] => [[c]]
      | h :: t => (c :: h) :: t

/-- JavaScript `String.prototype.split` with a non-empty separator: scan from
the left, cutting at each non-overlapping occurrence of the separator. -/
def splitNE (sep l : Str) : List Str := splitF sep l.length l

/-- JavaScript `String.prototype.split`; the empty separator splits into
single characters. -/
def jsSplit (s sep : Str) : List Str :=
  if sep = [] then s.map (fun c => [c]) else splitNE sep s

/-- JavaScript `Array.prototype.join`. -/
def joinS (sep : Str) : List Str → Str
  | [] => []
  | [x] => x
  | x :: y :: t => x ++ sep ++ joinS sep (y :: t)

/-- Worker for `dedupe`, carrying the set of values already emitted. -/
def dedupeAcc {α : Type} [DecidableEq α] (seen : List α) : List α → List α
  | [] => []
  | x :: t => if x ∈ seen then dedupeAcc seen t else x :: dedupeAcc (x :: seen) t

/-- JavaScript `[...new Set(l)]`: deduplicate keeping the first occurrence. -/
def dedupe {α : Type} [DecidableEq α] (l : List α) : List α := dedupeAcc [] l

/-- Exact decimal number: value `m / 10 ^ e`.  Model of the (finite, decimal)
JavaScript numbers the engine computes with. -/
structure Dec where
  m : Int
  e : Nat
deriving DecidableEq

/-- Rational value of a decimal. -/
def Dec.toRat (d : Dec) : ℚ := (d.m : ℚ) / ((10 : ℚ) ^ d.e)

def Dec.add (a b : Dec) : Dec := ⟨a.m * 10 ^ b.e + b.m * 10 ^ a.e, a.e + b.e⟩

def Dec.sub (a b : Dec) : Dec := ⟨a.m * 10 ^ b.e - b.m * 10 ^ a.e, a.e + b.e⟩

def Dec.mul (a b : Dec) : Dec := ⟨a.m * b.m, a.e + b.e⟩

/-- The factor `1 + v / 100` used by `increase_percent`. -/
def Dec.onePlusPct (v : Dec) : Dec := ⟨10 ^ (v.e + 2) + v.m, v.e + 2⟩

/-- The factor `1 - v / 100` used by `decrease_percent`. -/
def Dec.oneMinusPct (v : Dec) : Dec := ⟨10 ^ (v.e + 2) - v.m, v.e + 2⟩

/-- Value equality (the representation is not canonical). -/
def Dec.valEq (a b : Dec) : Bool := a.m * 10 ^ b.e == b.m * 10 ^ a.e

def Dec.valLt (a b : Dec) : Bool := decide (a.m * 10 ^ b.e < b.m * 10 ^ a.e)

def Dec.valLe (a b : Dec) : Bool := decide (a.m * 10 ^ b.e ≤ b.m * 10 ^ a.e)

/-- JavaScript `Math.floor`. -/
def Dec.floorInt (d : Dec) : Int := Int.fdiv d.m (10 ^ d.e)

/-- JavaScript `Math.round` (floor of x + 1/2). -/
def Dec.roundInt (d : Dec) : Int := Int.fdiv (2 * d.m + 10 ^ d.e) (2 * 10 ^ d.e)

/-- JavaScript `Math.max(0, x)`. -/
def Dec.max0 (d : Dec) : Dec := if d.m < 0 then ⟨0, 0⟩ else d

/-- NaN-aware equality: JS `===` on numbers (false when either side is NaN). -/
def nEq (a b : Option Dec) : Bool :=
  match a, b with
  | some x, some y => x.valEq y
  | _, _ => false

def nLt (a b : Option Dec) : Bool :=
  match a, b with
  | some x, some y => x.valLt y
  | _, _ => false

def nLe (a b : Option Dec) : Bool :=
  match a, b with
  | some x, some y => x.valLe y
  | _, _ => false

def nGt (a b : Option Dec) : Bool := nLt b a

def nGe (a b : Option Dec) : Bool := nLe b a

/-- Numeric value of a list of decimal digit characters. -/
def digitsVal (l : Str) : Nat := l.foldl (fun a c => a * 10 + (c.toNat - '0'.toNat)) 0

/-- Split a leading run of decimal digits from the rest. -/
def digitSpan (l : Str) : Str × Str := (l.takeWhile Char.isDigit, l.dropWhile Char.isDigit)

/-- Exponent suffix of a JavaScript float literal (`e`/`E`, optional sign);
yields 0 when absent or without digits, matching `parseFloat`'s behavior of
ignoring an incomplete exponent. -/
def parseExp (l : Str) : Int :=
  if l.head? = some 'e' ∨ l.head? = some 'E' then
    (if l.tail.head? = some '+' then
       (if (digitSpan l.tail.tail).1 = [] then 0 else ((digitsVal (digitSpan l.tail.tail).1 : Int)))
     else if l.tail.head? = some '-' then
       (if (digitSpan l.tail.tail).1 = [] then 0 else -((digitsVal (digitSpan l.tail.tail).1 : Int)))
     else (if (digitSpan l.tail).1 = [] then 0 else ((digitsVal (digitSpan l.tail).1 : Int))))
  else 0

def applyExp (d : Dec) (x : Int) : Dec :=
  if 0 ≤ x then ⟨d.m * 10 ^ x.toNat, d.e⟩ else ⟨d.m, d.e + (-x).toNat⟩

/-- JavaScript `parseFloat`: skip leading whitespace, optional sign, digits
with at most one decimal point, optional exponent; trailing garbage is
ignored; `none` models `NaN` (no digits consumed).  The literal `"Infinity"`
is not modeled. -/
def parseFloat (s : Str) : Option Dec :=
  let l := s.dropWhile isWS
  let sgn : Int := if l.head? = some '-' then -1 else 1
  let l1 : Str := if l.head? = some '-' ∨ l.head? = some '+' then l.tail else l
  let ids := (digitSpan l1).1
  let r1 := (digitSpan l1).2
  let fds : Str := if r1.head? = some '.' then (digitSpan r1.tail).1 else []
  let r2 : Str := if r1.head? = some '.' then (digitSpan r1.tail).2 else r1
  if ids = [] ∧ fds = [] then none
  else some (applyExp ⟨sgn * (digitsVal (ids ++ fds) : Int), fds.length⟩ (parseExp r2))

/-- Fuel-driven worker for `natDigits`. -/
def natDigitsF : Nat → Nat → Str
  | 0, _ => []
  | fuel + 1, n =>
    if n < 10 then [Char.ofNat ('0'.toNat + n)]
    else natDigitsF fuel (n / 10) ++ [Char.ofNat ('0'.toNat + n % 10)]

/-- Decimal digit characters of a natural number, most significant first. -/
def natDigits (n : Nat) : Str := natDigitsF (n + 1) n

/-- Decimal representation of an integer (JS `String(i)` for an integer). -/
def intStr (i : Int) : Str :=
  if i < 0 then '-' :: natDigits (-i).toNat else natDigits i.toNat

/-- Two decimal digits, zero padded. -/
def pad2 (n : Nat) : Str := if n < 10 then '0' :: natDigits n else natDigits n

/-- JavaScript `x.toFixed(2)` for the nonnegative values the engine produces
after clamping: round x·100 to the nearest integer (half up) and print with
exactly two digits after the point. -/
def toFixed2 (d : Dec) : Str :=
  let n : Int := Int.fdiv (2 * (d.m * 100) + 10 ^ d.e) (2 * 10 ^ d.e)
  natDigits (n.toNat / 100) ++ '.' :: pad2 (n.toNat % 100)

/-- Strip factors of ten shared between mantissa and exponent. -/
def stripTens : Int → Nat → Int × Nat
  | m, 0 => (m, 0)
  | m, e + 1 => if m % 10 = 0 then stripTens (m / 10) e else (m, e + 1)

/-- JavaScript `String(x)` for a finite decimal value: the shortest decimal
representation (the scientific notation JS uses outside `[1e-6, 1e21)` is not
modeled; no claim depends on such magnitudes). -/
def decStr (d : Dec) : Str :=
  let p := stripTens d.m d.e
  if p.2 = 0 then intStr p.1
  else
    let a := p.1.natAbs
    let fds := natDigits (a % 10 ^ p.2)
    (if p.1 < 0 then ['-'] else []) ++ natDigits (a / 10 ^ p.2)
      ++ '.' :: (List.replicate (p.2 - fds.length) '0' ++ fds)

/-- Value of `x.toFixed(4)` re-parsed as a number (the engine formats
non-price numerics as `String(parseFloat(r.toFixed(4)))`). -/
def fixed4Val (d : Dec) : Dec :=
  ⟨Int.fdiv (2 * (d.m * 10000) + 10 ^ d.e) (2 * 10 ^ d.e), 4⟩

/-!
## Data model

Entity snapshots as both engines consume them: a product with entity-level
attributes and a list of variants.  `Option` fields model values that can be
`null`/absent in the source objects (GraphQL nulls, webhook payload defaults).
-/

structure Variant where
  id : Str
  title : Str
  price : Str
  compareAtPrice : Option Str
  sku : Option Str
  barcode : Option Str
  inventoryQuantity : Option Int
  weight : Option Dec
deriving DecidableEq

structure Product where
  id : Str
  title : Str
  vendor : Str
  productType : Str
  status : Str
  tags : List Str
  templateSuffix : Option Str
  variants : List Variant
deriving DecidableEq

/-- Filter rule: `{ field, operator, value, value2 }`. -/
structure FilterRule where
  field : String
  operator : String
  value : Str
  value2 : Str
deriving DecidableEq

/-- Modification spec: `{ field, type, value, value2, rounding }`. -/
structure ModSpec where
  field : String
  type : String
  value : Str
  value2 : Str
  rounding : String
deriving DecidableEq

/-- Dynamic property read `product[field] || ""` for the entity-level string
attributes the two engines access that way. -/
def productProp (p : Product) (f : String) : Str :=
  if f = "title" then p.title
  else if f = "vendor" then p.vendor
  else if f = "productType" then p.productType
  else if f = "status" then p.status
  else if f = "templateSuffix" then optOr p.templateSuffix []
  else if f = "id" then p.id
  else []

/-!
## Filter evaluators

`evaluateFilterI` is the interactive wizard's `evaluateFilter`; it projects a
single string value per field — reading only the FIRST variant for
variant-level fields — and runs the operator switch inline (`applyRuleI`).
`evaluateFilterW` is the webhook handler's `evaluateFilter`, which quantifies
existentially over variants for its five variant-level fields and delegates
the operator switch to `matchValue` (`matchValueW`).
-/

/-- Field projection of the interactive `evaluateFilter` (the `switch` on
`rule.field`): variant-level fields read `variants?.edges?.[0]?.node`. -/
def filterValueI (p : Product) (f : String) : Str :=
  if f = "price" then
    (match p.variants.head? with | some v => jsOrS v.price [] | none => [])
  else if f = "compareAtPrice" then
    (match p.variants.head? with | some v => optOr v.compareAtPrice [] | none => [])
  else if f = "inventoryQuantity" then
    (match p.variants.head? with
     | some v => (match v.inventoryQuantity with | some n => intStr n | none => [])
     | none => [])
  else if f = "sku" then
    (match p.variants.head? with | some v => optOr v.sku [] | none => [])
  else if f = "weight" then
    (match p.variants.head? with
     | some v => (match v.weight with | some w => decStr w | none => str "0")
     | none => str "0")
  else if f = "templateSuffix" then optOr p.templateSuffix []
  else if f = "variantTitle" then joinS (str ", ") (p.variants.map (fun v => jsOrS v.title []))
  else if f = "tags" then joinS (str ", ") p.tags
  else productProp p f

/-- Fields whose `equals` / `not_equals` comparison is numeric (both
evaluators use the same list). -/
def numCmpFields (f : String) : Prop :=
  f = "price" ∨ f = "compareAtPrice" ∨ f = "inventoryQuantity"

instance (f : String) : Decidable (numCmpFields f) := by
  unfold numCmpFields; infer_instance

/-- Operator switch of the interactive `evaluateFilter` (inline in the
source). -/
def applyRuleI (value : Str) (rule : FilterRule) : Bool :=
  let v := jsLower value
  let rv := jsLower (jsOrS rule.value [])
  let rv2 := jsLower (jsOrS rule.value2 [])
  if rule.operator = "contains" then jsIncludes v rv
  else if rule.operator = "not_contains" then ! jsIncludes v rv
  else if rule.operator = "equals" then
    (if numCmpFields rule.field then nEq (parseFloat value) (parseFloat rule.value)
     else v == rv)
  else if rule.operator = "not_equals" then
    (if numCmpFields rule.field then ! nEq (parseFloat value) (parseFloat rule.value)
     else v != rv)
  else if rule.operator = "starts_with" then rv.isPrefixOf v
  else if rule.operator = "ends_with" then rv.reverse.isPrefixOf v.reverse
  else if rule.operator = "is_empty" then value == []
  else if rule.operator = "is_not_empty" then value != []
  else if rule.operator = "greater_than" then nGt (parseFloat value) (parseFloat rule.value)
  else if rule.operator = "less_than" then nLt (parseFloat value) (parseFloat rule.value)
  else if rule.operator = "greater_or_equal" then nGe (parseFloat value) (parseFloat rule.value)
  else if rule.operator = "less_or_equal" then nLe (parseFloat value) (parseFloat rule.value)
  else if rule.operator = "between" then
    nGe (parseFloat value) (parseFloat rule.value) && nLe (parseFloat value) (parseFloat rv2)
  else true

/-- Interactive `evaluateFilter(product, rule)`. -/
def evaluateFilterI (p : Product) (rule : FilterRule) : Bool :=
  applyRuleI (filterValueI p rule.field) rule

/-- Webhook `matchValue(value, rule)`: the identical operator switch. -/
def matchValueW (value : Str) (rule : FilterRule) : Bool :=
  let v := jsLower value
  let rv := jsLower (jsOrS rule.value [])
  let rv2 := jsLower (jsOrS rule.value2 [])
  if rule.operator = "contains" then jsIncludes v rv
  else if rule.operator = "not_contains" then ! jsIncludes v rv
  else if rule.operator = "equals" then
    (if numCmpFields rule.field then nEq (parseFloat value) (parseFloat rule.value)
     else v == rv)
  else if rule.operator = "not_equals" then
    (if numCmpFields rule.field then ! nEq (parseFloat value) (parseFloat rule.value)
     else v != rv)
  else if rule.operator = "starts_with" then rv.isPrefixOf v
  else if rule.operator = "ends_with" then rv.reverse.isPrefixOf v.reverse
  else if rule.operator = "is_empty" then value == []
  else if rule.operator = "is_not_empty" then value != []
  else if rule.operator = "greater_than" then nGt (parseFloat value) (parseFloat rule.value)
  else if rule.operator = "less_than" then nLt (parseFloat value) (parseFloat rule.value)
  else if rule.operator = "greater_or_equal" then nGe (parseFloat value) (parseFloat rule.value)
  else if rule.operator = "less_or_equal" then nLe (parseFloat value) (parseFloat rule.value)
  else if rule.operator = "between" then
    nGe (parseFloat value) (parseFloat rule.value) && nLe (parseFloat value) (parseFloat rv2)
  else true

/-- Per-variant read `String(v[rule.field] || "")` in the webhook
`evaluateFilter`'s variant-level branch. -/
def readVariantFieldW (v : Variant) (f : String) : Str :=
  if f = "price" then jsOrS v.price []
  else if f = "compareAtPrice" then optOr v.compareAtPrice []
  else if f = "sku" then optOr v.sku []
  else if f = "barcode" then optOr v.barcode []
  else if f = "inventoryQuantity" then
    (match v.inventoryQuantity with
     | some n => if n = 0 then [] else intStr n
     | none => [])
  else []

/-- The five fields the webhook `evaluateFilter` treats as variant-level. -/
def wVariantFields : List String :=
  ["price", "compareAtPrice", "sku", "barcode", "inventoryQuantity"]

/-- Webhook `evaluateFilter(product, rule)`: existential over variants for
the five variant-level fields, entity-level read otherwise. -/
def evaluateFilterW (p : Product) (rule : FilterRule) : Bool :=
  if rule.field ∈ wVariantFields then
    p.variants.any (fun v => matchValueW (readVariantFieldW v rule.field) rule)
  else
    matchValueW
      (if rule.field = "tags" then joinS (str ", ") p.tags else productProp p rule.field)
      rule

/-!
## Value transformers

`calcValueI` is the interactive wizard's `calcValue`, `calcValueW` the
webhook handler's.  Each resolves its own `EDITABLE_FIELDS` registry (the
interactive one has 11 fields including `weight` and `templateSuffix`; the
webhook one has 9).  `none` models the JS `null`/`undefined` return.
-/

/-- Category and ownership level of an editable field. -/
structure FieldDef where
  category : String
  level : String
deriving DecidableEq

/-- Registry lookup `EDITABLE_FIELDS.find(f => f.value === fieldValue)` of the
interactive module (fields in source order). -/
def getFieldDefI (f : String) : Option FieldDef :=
  if f = "price" then some ⟨"numeric", "variant"⟩
  else if f = "compareAtPrice" then some ⟨"numeric", "variant"⟩
  else if f = "sku" then some ⟨"text", "variant"⟩
  else if f = "barcode" then some ⟨"text", "variant"⟩
  else if f = "weight" then some ⟨"numeric", "variant"⟩
  else if f = "title" then some ⟨"text", "product"⟩
  else if f = "vendor" then some ⟨"text", "product"⟩
  else if f = "productType" then some ⟨"text", "product"⟩
  else if f = "tags" then some ⟨"tags", "product"⟩
  else if f = "status" then some ⟨"select", "product"⟩
  else if f = "templateSuffix" then some ⟨"text", "product"⟩
  else none

/-- Registry lookup of the webhook module (no `weight`, no
`templateSuffix`). -/
def getFieldDefW (f : String) : Option FieldDef :=
  if f = "price" then some ⟨"numeric", "variant"⟩
  else if f = "compareAtPrice" then some ⟨"numeric", "variant"⟩
  else if f = "sku" then some ⟨"text", "variant"⟩
  else if f = "barcode" then some ⟨"text", "variant"⟩
  else if f = "title" then some ⟨"text", "product"⟩
  else if f = "vendor" then some ⟨"text", "product"⟩
  else if f = "productType" then some ⟨"text", "product"⟩
  else if f = "tags" then some ⟨"tags", "product"⟩
  else if f = "status" then some ⟨"select", "product"⟩
  else none

/-- Accessor function of the interactive registry entry for a variant-level
field (`fieldDef.accessor(variant)`; `none` models a `null` result). -/
def accessorI (f : String) (v : Variant) : Option Str :=
  if f = "price" then some v.price
  else if f = "compareAtPrice" then v.compareAtPrice
  else if f = "sku" then some (optOr v.sku [])
  else if f = "barcode" then some (optOr v.barcode [])
  else if f = "weight" then
    some (match v.weight with | some w => decStr w | none => str "0")
  else some []

/-- Arithmetic switch on `mod.type` shared verbatim by both `calcValue`
implementations (`c` is NaN-propagating, `v` is the parsed `mod.value`). -/
def jsArith (ty : String) (c : Option Dec) (v : Dec) : Option Dec :=
  if ty = "exact" then some v
  else if ty = "increase_percent" then c.map (fun x => x.mul v.onePlusPct)
  else if ty = "decrease_percent" then c.map (fun x => x.mul v.oneMinusPct)
  else if ty = "increase_fixed" then c.map (fun x => x.add v)
  else if ty = "decrease_fixed" then c.map (fun x => x.sub v)
  else c

/-- Rounding switch on `mod.rounding` (`"99"`, `"95"`, `"whole"`, anything
else is a no-op); `Math.floor`/`Math.round` propagate NaN. -/
def applyRounding (rounding : String) (r : Option Dec) : Option Dec :=
  match r with
  | none => none
  | some d =>
    if rounding = "99" then some ⟨d.floorInt * 100 + 99, 2⟩
    else if rounding = "95" then some ⟨d.floorInt * 100 + 95, 2⟩
    else if rounding = "whole" then some ⟨d.roundInt, 0⟩
    else some d

/-- `Math.max(0, r).toFixed(2)` with NaN passing through as `"NaN"`. -/
def formatFixed2 (r : Option Dec) : Str :=
  match r with
  | none => str "NaN"
  | some d => toFixed2 d.max0

/-- Non-price numeric formatting of the interactive `calcValue`:
`r = Math.max(0, r); r % 1 === 0 ? String(r) :
String(parseFloat(r.toFixed(4)))`. -/
def formatPlain (r : Option Dec) : Str :=
  match r with
  | none => str "NaN"
  | some d0 =>
    let d := d0.max0
    if d.m % ((10 : Int) ^ d.e) = 0 then decStr d else decStr (fixed4Val d)

/-- The `priceFields` list of the interactive `calcValue`. -/
def priceField (f : String) : Prop := f = "price" ∨ f = "compareAtPrice" ∨ f = "cost"

instance (f : String) : Decidable (priceField f) := by
  unfold priceField; infer_instance

/-- Normalized tag list `(cur || "").split(",").map(t => t.trim())
.filter(Boolean)`. -/
def normTags (s : Str) : List Str :=
  ((jsSplit s (str ",")).map jsTrim).filter (fun t => t ≠ [])

/-- Interactive `calcValue(current, mod)`. -/
def calcValueI (current : Option Str) (m : ModSpec) : Option Str :=
  match getFieldDefI m.field with
  | none => none
  | some fd =>
    if fd.category = "numeric" then
      match parseFloat m.value with
      | none => none
      | some v =>
        let c := parseFloat (optOr current (str "0"))
        let r := jsArith m.type c v
        if priceField m.field then some (formatFixed2 (applyRounding m.rounding r))
        else some (formatPlain r)
    else if fd.category = "text" then
      let cur := optOr current []
      if m.type = "set" then some m.value
      else if m.type = "prepend" then some (m.value ++ cur)
      else if m.type = "append" then some (cur ++ m.value)
      else if m.type = "find_replace" then some (joinS m.value2 (jsSplit cur m.value))
      else some cur
    else if fd.category = "tags" then
      let curTags := normTags (optOr current [])
      if m.type = "add" then
        let newTags := normTags m.value
        some (joinS (str ", ") (dedupe (curTags ++ newTags)))
      else if m.type = "remove" then
        let removeTags := (jsSplit m.value (str ",")).map (fun t => jsLower (jsTrim t))
        some (joinS (str ", ") (curTags.filter (fun t => ! removeTags.contains (jsLower t))))
      else if m.type = "set" then some m.value
      else current
    else if fd.category = "select" then some m.value
    else none

/-- Webhook `calcValue(current, mod)`. -/
def calcValueW (current : Option Str) (m : ModSpec) : Option Str :=
  match getFieldDefW m.field with
  | none => none
  | some fd =>
    if fd.category = "numeric" then
      match parseFloat m.value with
      | none => none
      | some v =>
        let c := parseFloat (optOr current (str "0"))
        some (formatFixed2 (applyRounding m.rounding (jsArith m.type c v)))
    else if fd.category = "text" then
      let cur := optOr current []
      if m.type = "set" then some m.value
      else if m.type = "prepend" then some (m.value ++ cur)
      else if m.type = "append" then some (cur ++ m.value)
      else if m.type = "find_replace" then some (joinS m.value2 (jsSplit cur m.value))
      else some cur
    else if fd.category = "tags" then
      let curTags := normTags (optOr current [])
      let newTags := normTags (jsOrS m.value [])
      if m.type = "add" then some (joinS (str ", ") (dedupe (curTags ++ newTags)))
      else if m.type = "remove" then
        some (joinS (str ", ") (curTags.filter (fun t => ! newTags.contains t)))
      else if m.type = "set" then some (joinS (str ", ") newTags)
      else current
    else if fd.category = "select" ∧ m.type = "set" then some m.value
    else none

/-!
## Change planner

Embedding of the interactive route's `changes` construction (the same loop is
repeated verbatim in `confirmExecute`): outer loop over selected products,
inner loop over modification specs; product-level fields yield at most one
Change per product, variant-level fields one per variant, with the no-op
suppression comparisons of the source.
-/

structure Change where
  productId : Str
  productTitle : Str
  variantId : Option Str
  variantTitle : Option Str
  field : String
  oldValue : Str
  newValue : Str
  modType : String
deriving DecidableEq

/-- Product-level branch of the planner loop body (`cur` of the source is
inlined). -/
def planProductChange (p : Product) (m : ModSpec) : Option Change :=
  (calcValueI
      (some (if m.field = "tags" then joinS (str ", ") p.tags else productProp p m.field))
      m).bind (fun nv =>
    if nv = (if m.field = "tags" then joinS (str ", ") p.tags else productProp p m.field)
    then none
    else some ⟨p.id, p.title, none, none, m.field,
               (if m.field = "tags" then joinS (str ", ") p.tags else productProp p m.field),
               nv, m.type⟩)

/-- Variant-level branch of the planner loop body (one variant): the skip of
falsy numeric currents for non-`exact`/non-`set` types, then compute, then
the field-appropriate no-op comparison (`cur` and the defaulted current are
inlined). -/
def planVariantChange (p : Product) (fd : FieldDef) (m : ModSpec) (v : Variant) :
    Option Change :=
  if jsFalsy (accessorI m.field v) ∧ m.type ≠ "exact" ∧ m.type ≠ "set" ∧
      fd.category = "numeric" then none
  else
    (calcValueI
        (some (optOr (accessorI m.field v)
          (if fd.category = "numeric" then str "0" else []))) m).bind (fun nv =>
      if fd.category = "numeric" then
        if nEq (parseFloat (optOr (accessorI m.field v) (str "0"))) (parseFloat nv) then none
        else some ⟨p.id, p.title, some v.id, some v.title, m.field,
                   optOr (accessorI m.field v)
                     (if fd.category = "numeric" then str "0" else []), nv, m.type⟩
      else
        if optOr (accessorI m.field v) [] = nv then none
        else some ⟨p.id, p.title, some v.id, some v.title, m.field,
                   optOr (accessorI m.field v)
                     (if fd.category = "numeric" then str "0" else []), nv, m.type⟩)

/-- Planner body for one (product, mod) pair. -/
def planFor (p : Product) (m : ModSpec) : List Change :=
  match getFieldDefI m.field with
  | none => []
  | some fd =>
    if fd.level = "product" then (planProductChange p m).toList
    else p.variants.filterMap (planVariantChange p fd m)

/-- The Change Planner: all changes for the selected products and the
modification list, in source order. -/
def planChanges (selected : List Product) (mods : List ModSpec) : List Change :=
  selected.flatMap (fun p => mods.flatMap (fun m => planFor p m))

/-!
## Applying planned values to snapshots

`plan_apply` of the spec's idempotence property.  Modelled from the spec:
the repository itself sends new values to the external catalog and re-fetches
snapshots, so writing a Change's `newValue` back into the in-memory snapshot
is modeled here, using the same per-field wire format the executor uses
(tags are sent split/trimmed/filtered, weight is sent as `parseFloat` of the
new value). -/

def writeProductField (f : String) (nv : Str) (p : Product) : Product :=
  if f = "title" then { p with title := nv }
  else if f = "vendor" then { p with vendor := nv }
  else if f = "productType" then { p with productType := nv }
  else if f = "status" then { p with status := nv }
  else if f = "tags" then { p with tags := normTags nv }
  else if f = "templateSuffix" then { p with templateSuffix := some nv }
  else p

def writeVariantField (f : String) (nv : Str) (v : Variant) : Variant :=
  if f = "price" then { v with price := nv }
  else if f = "compareAtPrice" then { v with compareAtPrice := some nv }
  else if f = "sku" then { v with sku := some nv }
  else if f = "barcode" then { v with barcode := some nv }
  else if f = "weight" then { v with weight := parseFloat nv }
  else v

def applyChange (p : Product) (c : Change) : Product :=
  if c.productId = p.id then
    match c.variantId with
    | none => writeProductField c.field c.newValue p
    | some vid =>
      { p with variants :=
          p.variants.map (fun v =>
            if v.id = vid then writeVariantField c.field c.newValue v else v) }
  else p

def applyChangeset (E : List Product) (C : List Change) : List Product :=
  E.map (fun p => C.foldl applyChange p)

/-!
## Batch executor

Embedding of the `execute` intent of the interactive route's action: group by
product, split each group into a product-level and a variant-level request,
issue them against the catalog, accumulate success/error counts, error
entries and audit (price-history) records, all wrapped per group in a
try/catch whose catch adds the whole group's change count to the error
count.  The external catalog is a `Catalog` oracle mapping (productId,
isVariantRequest) to an outcome. -/

inductive Outcome where
  | resp (userErrors : List Str)
  | thrown (msg : Str)
deriving DecidableEq

/-- Outcome of each catalog mutation: per product id, the second component
selects the product-level (false) or variant-level (true) request. -/
def Catalog : Type := Str → Bool → Outcome

/-- Fields routed to the product-level mutation by the executor. -/
def execProductFields : List String :=
  ["title", "vendor", "productType", "status", "tags", "templateSuffix"]

/-- Fields routed to the variant-level mutation by the executor. -/
def execVariantFields : List String :=
  ["price", "compareAtPrice", "sku", "barcode", "weight", "taxable"]

structure EntityErr where
  product : Str
  msgs : List Str
deriving DecidableEq

structure HistRec where
  productId : Str
  variantId : Option Str
  productTitle : Str
  variantTitle : Option Str
  oldPrice : Str
  newPrice : Str
  changeType : String
  changeSource : String
deriving DecidableEq

/-- Audit record pushed after a successful product-level request
(`variantId: change.variantId || productId`). -/
def histRecP (c : Change) : HistRec :=
  ⟨c.productId,
   some (match c.variantId with
         | some v => jsOrS v c.productId
         | none => c.productId),
   c.productTitle,
   (match c.variantTitle with | some t => if t = [] then none else some t | none => none),
   c.oldValue, c.newValue, c.field, "bulk_edit"⟩

/-- Audit record pushed after a successful variant-level request
(`variantId: change.variantId`). -/
def histRecV (c : Change) : HistRec :=
  ⟨c.productId, c.variantId, c.productTitle,
   (match c.variantTitle with | some t => if t = [] then none else some t | none => none),
   c.oldValue, c.newValue, c.field, "bulk_edit"⟩

structure GroupRes where
  succ : Nat
  err : Nat
  errors : List EntityErr
  hist : List HistRec
  issued : List (Str × Bool)
deriving DecidableEq

/-- Variant-level half of one group's processing, continuing from the
accumulated result of the product-level half. -/
def processVariantStep (cat : Catalog) (pid : Str) (g vl : List Change) (t0 : Str)
    (a : GroupRes) : GroupRes :=
  if vl = [] then a
  else
    match cat pid true with
    | .thrown msg =>
      ⟨a.succ, a.err + g.length, a.errors ++ [⟨t0, [msg]⟩], a.hist,
       a.issued ++ [(pid, true)]⟩
    | .resp ue =>
      if ue ≠ [] then
        ⟨a.succ, a.err + vl.length, a.errors ++ [⟨t0, ue⟩], a.hist,
         a.issued ++ [(pid, true)]⟩
      else
        ⟨a.succ + vl.length, a.err, a.errors, a.hist ++ vl.map histRecV,
         a.issued ++ [(pid, true)]⟩

/-- Processing of one product's group of changes (the body of the executor's
loop, including its try/catch). -/
def processGroup (cat : Catalog) (pid : Str) (g : List Change) : GroupRes :=
  let pl := g.filter (fun c => c.field ∈ execProductFields)
  let vl := g.filter (fun c => c.field ∈ execVariantFields)
  let t0 : Str := match g.head? with | some c => c.productTitle | none => []
  if pl = [] then processVariantStep cat pid g vl t0 ⟨0, 0, [], [], []⟩
  else
    match cat pid false with
    | .thrown msg => ⟨0, g.length, [⟨t0, [msg]⟩], [], [(pid, false)]⟩
    | .resp ue =>
      if ue ≠ [] then
        processVariantStep cat pid g vl t0 ⟨0, pl.length, [⟨t0, ue⟩], [], [(pid, false)]⟩
      else
        processVariantStep cat pid g vl t0
          ⟨pl.length, 0, [], pl.map histRecP, [(pid, false)]⟩

/-- Group keys in first-occurrence order (JS object key insertion order). -/
def groupKeys (changes : List Change) : List Str := dedupe (changes.map (·.productId))

/-- `changesByProduct` as an ordered association list. -/
def groupByProduct (changes : List Change) : List (Str × List Change) :=
  (groupKeys changes).map (fun k => (k, changes.filter (fun c => c.productId = k)))

structure ExecReport where
  succ : Nat
  err : Nat
  errors : List EntityErr
  hist : List HistRec
  issued : List (Str × Bool)
  totalProducts : Nat
deriving DecidableEq

/-- The Batch Executor: fold the per-group processing over all groups,
threading the mutable counters of the source. -/
def executeChanges (cat : Catalog) (changes : List Change) : ExecReport :=
  let gs := groupByProduct changes
  let acc := gs.foldl
    (fun (a : ExecReport) pg =>
      let r := processGroup cat pg.1 pg.2
      ⟨a.succ + r.succ, a.err + r.err, a.errors ++ r.errors, a.hist ++ r.hist,
       a.issued ++ r.issued, 0⟩)
    (⟨0, 0, [], [], [], 0⟩ : ExecReport)
  { acc with totalProducts := gs.length }

/-- `PLAN_LIMITS[plan] || 3` (`none` models the Plus plan's `Infinity`). -/
def planLimit (plan : String) : Option Nat :=
  if plan = "free" then some 3
  else if plan = "pro" then some 50
  else if plan = "plus" then none
  else some 3

structure BulkEditRec where
  name : Str
  status : String
  productCount : Nat
  changesStored : List Change
deriving DecidableEq

/-- Observable effects of one `execute` action invocation. -/
structure ExecEffects where
  limitReached : Bool
  report : Option ExecReport
  histWrites : List HistRec
  bulkEditWrite : Option BulkEditRec
  usageIncremented : Bool
  issued : List (Str × Bool)
deriving DecidableEq

/-- The `execute` intent of the action: quota precondition first (plan limit
versus current monthly usage), then the Batch Executor, then the audit
writes and the usage-counter increment. -/
def executeIntent (plan : String) (monthlyEdits : Nat) (editName : Str)
    (changes : List Change) (cat : Catalog) : ExecEffects :=
  let planKey := if plan = "" then "free" else plan
  let run : ExecEffects :=
    let R := executeChanges cat changes
    ⟨false, some R, R.hist,
     some ⟨jsOrS editName (str "Bulk Edit"),
           (if R.err = 0 then "completed" else "partial"), R.succ, changes.take 50⟩,
     true, R.issued⟩
  match planLimit planKey with
  | some lim => if lim ≤ monthlyEdits then ⟨true, none, [], none, false, []⟩ else run
  | none => run

/-!
## Reversal path

Embedding of the `revert` intent: group by product; fields in
{title, vendor, productType, status, tags} are sent in a product-level
update carrying `oldValue` (tags split/trimmed/filtered); all other fields
go to the variant-level request, where only price/compareAtPrice/sku/barcode
produce a field assignment — other fields (weight, templateSuffix, ...)
yield an update object containing nothing but the variant id. -/

inductive RevVal where
  | s (v : Str)
  | tagList (l : List Str)
deriving DecidableEq

/-- Requests the revert path would issue, as flat assignment lists:
`productAssigns` are (productId, field, value) writes of the product-level
updates, `variantAssigns` are (productId, variantId, field, value) writes of
the variant-level updates, and `variantObjs` records the `{id: ...}` update
object created for every variant-routed change (with or without fields). -/
structure RevertOut where
  productAssigns : List (Str × String × RevVal)
  variantAssigns : List (Str × Str × String × Str)
  variantObjs : List (Str × Str)
deriving DecidableEq

def revertProductFields : List String := ["title", "vendor", "productType", "status", "tags"]

/-- Product-level assignment of one reverted change (the if/else chain
building `productInput` from `oldValue`). -/
def revertAssignOfChange (c : Change) : Option (Str × String × RevVal) :=
  if c.field = "title" ∨ c.field = "vendor" ∨ c.field = "productType" ∨ c.field = "status"
  then some (c.productId, c.field, .s c.oldValue)
  else if c.field = "tags" then some (c.productId, c.field, .tagList (normTags c.oldValue))
  else none

/-- Variant-level assignments of one reverted change (`v = {id}` plus a
field only for price/compareAtPrice/sku/barcode). -/
def revertVariantAssign (c : Change) : List (Str × Str × String × Str) :=
  if c.field = "price" ∨ c.field = "compareAtPrice" ∨ c.field = "sku" ∨ c.field = "barcode"
  then [(c.productId, (c.variantId).getD [], c.field, c.oldValue)]
  else []

/-- The `revert` intent's request construction over a stored changeset: for
each product group in order, the product-level input is assembled from the
`oldValue`s of the group's changes on the five revertible fields, and the
variant-level update list from the remaining changes (assignments flattened
in loop order). -/
def revertRequests (changes : List Change) : RevertOut :=
  ⟨(groupByProduct changes).flatMap (fun pg =>
      (pg.2.filter (fun c => c.field ∈ revertProductFields)).filterMap revertAssignOfChange),
   (groupByProduct changes).flatMap (fun pg =>
      (pg.2.filter (fun c => c.field ∉ revertProductFields)).flatMap revertVariantAssign),
   (groupByProduct changes).flatMap (fun pg =>
      (pg.2.filter (fun c => c.field ∉ revertProductFields)).map
        (fun c => (c.productId, (c.variantId).getD [])))⟩

/-!
## Supporting definitions for the claims
-/

/-- Whether a field's no-op comparison is numeric (parsed-float) in the
planner. -/
def fieldEqNum (f : String) : Bool :=
  match getFieldDefI f with
  | some fd => fd.category == "numeric"
  | none => false

/-- Field-appropriate equality of the no-op suppression: parsed-float
equality for numeric fields, string equality otherwise. -/
def noopEq (f : String) (a b : Str) : Bool :=
  if fieldEqNum f then nEq (parseFloat a) (parseFloat b) else a == b

/-- Modification specs whose computed value does not depend on the current
value: numeric `exact` and text/select `set` (relative numeric types, text
prepend/append/find_replace and all tag operations are excluded). -/
def absoluteMod (m : ModSpec) : Prop :=
  match getFieldDefI m.field with
  | none => True
  | some fd =>
    (fd.category = "numeric" ∧ m.type = "exact") ∨
    ((fd.category = "text" ∨ fd.category = "select") ∧ m.type = "set")

/-- Accessor read of a variant right after the executor wrote `nv` into
field `f` (independent of the variant's previous state). -/
def writtenVRead (f : String) (nv : Str) : Option Str :=
  if f = "price" then some nv
  else if f = "compareAtPrice" then some nv
  else if f = "sku" then some (jsOrS nv [])
  else if f = "barcode" then some (jsOrS nv [])
  else if f = "weight" then
    some (match parseFloat nv with | some w => decStr w | none => str "0")
  else some []

/-- Entity-level read of field `f` right after the executor wrote `nv` into
it. -/
def writtenPRead (f : String) (nv : Str) : Str :=
  if f = "templateSuffix" then jsOrS nv [] else nv

/-- Effect of one Change on one variant of the product with id `pid`
(the variant-level half of `applyChange`). -/
def variantStep (pid : Str) (c : Change) (v : Variant) : Variant :=
  if c.productId = pid then
    match c.variantId with
    | none => v
    | some vid => if v.id = vid then writeVariantField c.field c.newValue v else v
  else v

/-- Composition of the variant-level effects of a change list. -/
def applySteps (pid : Str) (C : List Change) (v : Variant) : Variant :=
  C.foldl (fun w c => variantStep pid c w) v

/-- Whether a catalog outcome is a thrown exception. -/
def isThrown (o : Outcome) : Bool :=
  match o with
  | .thrown _ => true
  | .resp _ => false

/-- Whether a catalog response reports user errors (a non-exceptional
failure). -/
def hasErrs (o : Outcome) : Bool :=
  match o with
  | .thrown _ => true
  | .resp ue => ue ≠ []

/-- Variant-level fields the revert path writes back. -/
def revertVarFields : List String := ["price", "compareAtPrice", "sku", "barcode"]

/-- The product-level assignment the revert path derives from a change. -/
def revertConvP (c : Change) : Str × String × RevVal :=
  (c.productId, c.field,
   if c.field = "tags" then .tagList (normTags c.oldValue) else .s c.oldValue)

/-- The variant-level assignment the revert path derives from a change. -/
def revertConvV (c : Change) : Str × Str × String × Str :=
  (c.productId, (c.variantId).getD [], c.field, c.oldValue)

/-- Tags as they occur inside a normalized tag list: nonempty, trimmed,
comma-free. -/
def cleanTag (t : Str) : Prop := t ≠ [] ∧ jsTrim t = t ∧ ',' ∉ t

/-- Left trim. -/
def trimL (s : Str) : Str := s.dropWhile isWS

/-- Right trim. -/
def trimR (s : Str) : Str := (s.reverse.dropWhile isWS).reverse

/-!
## Concrete instances used by counterexamples and witnesses
-/

/-- Variant priced 5.00. -/
def vP5 : Variant := ⟨str "v1", str "Small", str "5.00", none, none, none, some 3, none⟩

/-- Variant priced 50.00. -/
def vP50 : Variant := ⟨str "v2", str "Large", str "50.00", none, none, none, some 7, none⟩

/-- Product with variants priced [5.00, 50.00]. -/
def pTwoVar : Product :=
  ⟨str "p1", str "Prod", str "Acme", str "Shirt", str "ACTIVE", [str "sale"], none, [vP5, vP50]⟩

/-- The same product with its variants in the opposite order. -/
def pTwoVarRev : Product :=
  ⟨str "p1", str "Prod", str "Acme", str "Shirt", str "ACTIVE", [str "sale"], none, [vP50, vP5]⟩

/-- Filter rule price > 20. -/
def ruleGt20 : FilterRule := ⟨"price", "greater_than", str "20", []⟩

/-- Filter rule price > 100. -/
def ruleGt100 : FilterRule := ⟨"price", "greater_than", str "100", []⟩

/-- Single-variant product priced 10.00. -/
def pTen : Product :=
  ⟨str "p1", str "Prod", str "Acme", str "Shirt", str "ACTIVE", [], none,
   [⟨str "v1", str "Default", str "10.00", none, none, none, none, none⟩]⟩

/-- Mod: set price to exactly 10.00. -/
def mExactTen : ModSpec := ⟨"price", "exact", str "10.00", [], "none"⟩

/-- Mod: increase price by a fixed 5. -/
def mIncFive : ModSpec := ⟨"price", "increase_fixed", str "5", [], "none"⟩

/-- Mod: replace the tag list by the raw string "a,b". -/
def mTagsSetAB : ModSpec := ⟨"tags", "set", str "a,b", [], "none"⟩

/-- Mod: remove tag "Sale". -/
def mTagsRemoveSale : ModSpec := ⟨"tags", "remove", str "Sale", [], "none"⟩

/-- A product-level change and a variant-level change on one entity. -/
def chTitle : Change :=
  ⟨str "p1", str "P1", none, none, "title", str "Old", str "New", "set"⟩

def chPrice : Change :=
  ⟨str "p1", str "P1", some (str "v1"), some (str "D"), "price", str "1.00", str "2.00", "exact"⟩

/-- Catalog oracle whose variant-level requests all throw. -/
def catThrowVariant : Catalog :=
  fun _ isVariant => if isVariant then .thrown (str "network down") else .resp []

/-- Three-entity changeset for the end-to-end failure-isolation test:
entity p2 carries two changes and its requests fail with user errors. -/
def chA : Change :=
  ⟨str "pA", str "PA", some (str "vA"), some (str "D"), "price", str "10.00", str "12.00", "exact"⟩

def chB1 : Change :=
  ⟨str "pB", str "PB", some (str "vB"), some (str "D"), "price", str "10.00", str "12.00", "exact"⟩

def chB2 : Change :=
  ⟨str "pB", str "PB", none, none, "title", str "a", str "b", "set"⟩

def chC : Change :=
  ⟨str "pC", str "PC", some (str "vC"), some (str "D"), "price", str "10.00", str "12.00", "exact"⟩

def catFailB : Catalog :=
  fun pid _ => if pid = str "pB" then .resp [str "rejected"] else .resp []

/-- Change used for the revert witnesses. -/
def chVendor : Change :=
  ⟨str "p9", str "P9", none, none, "vendor", str "OldV", str "NewV", "set"⟩

/-- Variant priced 10.00 with no compare-at price. -/
def vTen : Variant := ⟨str "v1", str "Default", str "10.00", none, none, none, none, none⟩

/-- Mod: increase compare-at price by a fixed 5. -/
def mIncCap : ModSpec := ⟨"compareAtPrice", "increase_fixed", str "5", [], "none"⟩

/-- Mod: set price to exactly 20. -/
def mExactTwenty : ModSpec := ⟨"price", "exact", str "20", [], "none"⟩

/-- The executor's split of one group: changes routed to the product-level
request. -/
def plOf (g : List Change) : List Change :=
  g.filter (fun c => c.field ∈ execProductFields)

/-- The executor's split of one group: changes routed to the variant-level
request. -/
def vlOf (g : List Change) : List Change :=
  g.filter (fun c => c.field ∈ execVariantFields)

/-- The first change's product title, used in the per-entity error entries. -/
def t0Of (g : List Change) : Str :=
  match g.head? with | some c => c.productTitle | none => []

/-!
## Basic lemmas about the string and number workers
-/

theorem splitF_congr (sep : Str) :
    ∀ (fuel fuel' : Nat) (l : Str), l.length ≤ fuel → l.length ≤ fuel' →
      splitF sep fuel l = splitF sep fuel' l := by
  intro fuel
  induction fuel with
  | zero =>
    intro fuel' l h _
    have hnil : l = [] := List.eq_nil_of_length_eq_zero (by omega)
    subst hnil
    cases fuel' <;> rfl
  | succ f ih =>
    intro fuel' l h h'
    cases l with
    | nil => cases fuel' <;> rfl
    | cons c rest =>
      cases fuel' with
      | zero => simp at h'
      | succ f' =>
        simp only [splitF]
        have hr : rest.length ≤ f := by simp at h; omega
        have hr' : rest.length ≤ f' := by simp at h'; omega
        by_cases hc : sep ≠ [] ∧ sep.isPrefixOf (c :: rest)
        · simp only [if_pos hc]
          have hd : (rest.drop (sep.length - 1)).length ≤ f := by
            simp only [List.length_drop]; omega
          have hd' : (rest.drop (sep.length - 1)).length ≤ f' := by
            simp only [List.length_drop]; omega
          rw [ih _ _ hd hd']
        · simp only [if_neg hc]
          rw [ih _ _ hr hr']

theorem splitNE_nil (sep : Str) : splitNE sep [] = [[]] := rfl

theorem splitNE_cons (sep : Str) (c : Char) (rest : Str) :
    splitNE sep (c :: rest) =
      if sep ≠ [] ∧ sep.isPrefixOf (c :: rest) then
        [] :: splitNE sep (rest.drop (sep.length - 1))
      else
        match splitNE sep rest with
        | [] => [[c]]
        | h :: t => (c :: h) :: t := by
  show splitF sep (rest.length + 1) (c :: rest) = _
  simp only [splitF]
  by_cases hc : sep ≠ [] ∧ sep.isPrefixOf (c :: rest)
  · simp only [if_pos hc]
    rw [splitF_congr sep rest.length (rest.drop (sep.length - 1)).length
        (rest.drop (sep.length - 1)) (by simp only [List.length_drop]; omega) le_rfl]
    rfl
  · simp only [if_neg hc]
    rfl

theorem natDigitsF_congr :
    ∀ (fuel fuel' n : Nat), n < fuel → n < fuel' →
      natDigitsF fuel n = natDigitsF fuel' n := by
  intro fuel
  induction fuel with
  | zero => intro fuel' n h; omega
  | succ f ih =>
    intro fuel' n h h'
    cases fuel' with
    | zero => omega
    | succ f' =>
      simp only [natDigitsF]
      by_cases h10 : n < 10
      · simp [h10]
      · simp only [if_neg h10]
        have hd : n / 10 < f := by
          have := Nat.div_lt_self (show 0 < n by omega) (show 1 < 10 by omega)
          omega
        have hd' : n / 10 < f' := by
          have := Nat.div_lt_self (show 0 < n by omega) (show 1 < 10 by omega)
          omega
        rw [ih _ _ hd hd']

theorem natDigits_eq (n : Nat) :
    natDigits n =
      if n < 10 then [Char.ofNat ('0'.toNat + n)]
      else natDigits (n / 10) ++ [Char.ofNat ('0'.toNat + n % 10)] := by
  show natDigitsF (n + 1) n = _
  simp only [natDigitsF]
  by_cases h10 : n < 10
  · simp [h10]
  · simp only [if_neg h10]
    rw [natDigitsF_congr n (n / 10 + 1) (n / 10)
        (by have := Nat.div_lt_self (show 0 < n by omega) (show 1 < 10 by omega); omega)
        (by omega)]
    rfl

theorem mem_dedupeAcc {α : Type} [DecidableEq α] :
    ∀ (l seen : List α) (x : α), x ∈ dedupeAcc seen l ↔ x ∈ l ∧ x ∉ seen := by
  intro l
  induction l with
  | nil => intro seen x; simp [dedupeAcc]
  | cons a t ih =>
    intro seen x
    simp only [dedupeAcc]
    by_cases ha : a ∈ seen
    · rw [if_pos ha, ih]
      constructor
      · rintro ⟨hx, hs⟩
        exact ⟨List.mem_cons_of_mem _ hx, hs⟩
      · rintro ⟨hx, hs⟩
        rcases List.mem_cons.mp hx with rfl | hx
        · exact absurd ha hs
        · exact ⟨hx, hs⟩
    · rw [if_neg ha]
      constructor
      · intro hx
        rcases List.mem_cons.mp hx with rfl | hx'
        · exact ⟨List.mem_cons_self _ _, ha⟩
        · obtain ⟨ht, hs⟩ := (ih (a :: seen) x).mp hx'
          exact ⟨List.mem_cons_of_mem _ ht, fun hxs => hs (List.mem_cons_of_mem _ hxs)⟩
      · rintro ⟨hx, hs⟩
        rcases List.mem_cons.mp hx with rfl | hx'
        · exact List.mem_cons_self _ _
        · by_cases hxa : x = a
          · subst hxa; exact List.mem_cons_self _ _
          · refine List.mem_cons_of_mem _ ((ih (a :: seen) x).mpr ⟨hx', ?_⟩)
            intro hmem
            rcases List.mem_cons.mp hmem with h' | h'
            · exact hxa h'
            · exact hs h'

theorem mem_dedupe {α : Type} [DecidableEq α] (l : List α) (x : α) :
    x ∈ dedupe l ↔ x ∈ l := by
  unfold dedupe
  rw [mem_dedupeAcc]
  simp

/-!
## C8 — quota precondition atomicity
-/

/-- C8 (confirmed): when the shop's plan carries a finite monthly limit and
the current monthly edit count is at or over it, the `execute` intent
short-circuits: it returns the limit-reached result, issues zero catalog
mutations, writes no audit records (neither price-history rows nor a
bulk-edit record) and does not increment the usage counter. -/
theorem quota_limit_short_circuits (plan : String) (monthlyEdits : Nat) (editName : Str)
    (changes : List Change) (cat : Catalog) (lim : Nat)
    (hlim : planLimit (if plan = "" then "free" else plan) = some lim)
    (hover : lim ≤ monthlyEdits) :
    executeIntent plan monthlyEdits editName changes cat =
      ⟨true, none, [], none, false, []⟩ := by
  simp only [executeIntent]
  rw [hlim]
  simp [hover]

/-- Witness for `quota_limit_short_circuits`: a free-plan shop with 3 edits
used this month is blocked with no side effects. -/
theorem quota_limit_short_circuits_witness :
    executeIntent "free" 3 (str "Edit") [chPrice] catFailB =
      ⟨true, none, [], none, false, []⟩ :=
  quota_limit_short_circuits "free" 3 (str "Edit") [chPrice] catFailB 3
    (by decide) (by decide)

/-!
## C10 — blank numeric currents are skipped before compute
-/

/-- C10 (confirmed): for a variant-level numeric field whose current value on
a variant is missing or blank, any relative numeric modification (the four
non-`exact` numeric change types) produces no Change for that variant at
all — the variant is skipped before `calcValue` runs — even though
`calcValue` itself treats a blank current as 0 and would return a value that
differs from the current one (e.g. increase_fixed 5 on compare-at price
yields "5.00" ≠ 0). -/
theorem blank_numeric_skipped :
    (∀ (p : Product) (fd : FieldDef) (m : ModSpec) (v : Variant),
        fd.category = "numeric" →
        jsFalsy (accessorI m.field v) = true →
        (m.type = "increase_percent" ∨ m.type = "decrease_percent" ∨
         m.type = "increase_fixed" ∨ m.type = "decrease_fixed") →
        planVariantChange p fd m v = none) ∧
    calcValueI (some (str "0")) mIncCap = some (str "5.00") ∧
    nEq (parseFloat (str "0")) (parseFloat (str "5.00")) = false := by
  refine ⟨?_, by decide, by decide⟩
  intro p fd m v hcat hfalsy hty
  have h1 : m.type ≠ "exact" := by rcases hty with h | h | h | h <;> simp [h]
  have h2 : m.type ≠ "set" := by rcases hty with h | h | h | h <;> simp [h]
  unfold planVariantChange
  simp [hfalsy, h1, h2, hcat]

/-- Witness for `blank_numeric_skipped`: a variant with no compare-at price
is skipped by an increase_fixed modification. -/
theorem blank_numeric_skipped_witness :
    planVariantChange pTen ⟨"numeric", "variant"⟩ mIncCap vTen = none :=
  blank_numeric_skipped.1 pTen ⟨"numeric", "variant"⟩ mIncCap vTen rfl
    (by decide) (Or.inr (Or.inr (Or.inl (by decide))))

/-!
## C1 — sub-entity filter matching
-/

/-- C1 counterexample: with variants priced [5.00, 50.00], the filter
price > 20 is satisfied by the second variant, yet the interactive
`evaluateFilter` returns false — it inspects only the first variant, so the
result flips when the variant order is reversed.  The webhook evaluator
returns true on the same input.  This refutes the claim that both
evaluators quantify existentially over sub-entities. -/
theorem interactive_filter_not_existential :
    evaluateFilterI pTwoVar ruleGt20 = false ∧
    evaluateFilterI pTwoVarRev ruleGt20 = true ∧
    evaluateFilterW pTwoVar ruleGt20 = true := by decide

/-- C1 amended (proved): the WEBHOOK filter evaluator is existential over
variants for its five sub-entity fields (price, compare-at price, sku,
barcode, inventory quantity): an entity matches iff at least one variant
satisfies the operator; in particular variants priced [5.00, 50.00] match
price > 20 and do not match price > 100.  The interactive evaluator instead
reads only the first variant (see `interactive_filter_not_existential`). -/
theorem webhook_filter_existential :
    (∀ (p : Product) (rule : FilterRule), rule.field ∈ wVariantFields →
        (evaluateFilterW p rule = true ↔
          ∃ v ∈ p.variants, matchValueW (readVariantFieldW v rule.field) rule = true)) ∧
    evaluateFilterW pTwoVar ruleGt20 = true ∧
    evaluateFilterW pTwoVar ruleGt100 = false := by
  refine ⟨?_, by decide, by decide⟩
  intro p rule hf
  unfold evaluateFilterW
  rw [if_pos hf]
  exact List.any_eq_true

/-- Witness for `webhook_filter_existential` at a concrete product and
rule. -/
theorem webhook_filter_existential_witness :
    evaluateFilterW pTwoVar ruleGt20 = true ↔
      ∃ v ∈ pTwoVar.variants,
        matchValueW (readVariantFieldW v ruleGt20.field) ruleGt20 = true :=
  webhook_filter_existential.1 pTwoVar ruleGt20 (by decide)

/-!
## C2 — extensional equality of the two engines
-/

/-- C2 counterexample: the two `calcValue` functions disagree on a tags
`set` modification — the interactive one returns the raw value `"a,b"`, the
webhook one normalizes it to `"a, b"` — so the engines are not extensionally
equal. -/
theorem engines_not_extensionally_equal :
    calcValueI (some (str "x")) mTagsSetAB ≠ calcValueW (some (str "x")) mTagsSetAB := by
  decide

/-- C2 amended (proved): the two engines agree only partially.  The operator
switches are identical; the filter evaluators agree on entity-level fields
(title, vendor, productType, status, tags, templateSuffix); the `calcValue`
functions agree on the two price fields (numeric arithmetic, rounding,
clamping and 2-decimal formatting coincide) and on the shared text fields.
They disagree elsewhere (sub-entity filter fields, tags remove/set, weight,
templateSuffix), see `engines_not_extensionally_equal` and
`interactive_filter_not_existential`. -/
theorem engines_partial_agreement :
    (∀ (value : Str) (rule : FilterRule), applyRuleI value rule = matchValueW value rule) ∧
    (∀ (p : Product) (rule : FilterRule),
        (rule.field = "title" ∨ rule.field = "vendor" ∨ rule.field = "productType" ∨
         rule.field = "status" ∨ rule.field = "tags" ∨ rule.field = "templateSuffix") →
        evaluateFilterI p rule = evaluateFilterW p rule) ∧
    (∀ (cur : Option Str) (m : ModSpec),
        (m.field = "price" ∨ m.field = "compareAtPrice") →
        calcValueI cur m = calcValueW cur m) ∧
    (∀ (cur : Option Str) (m : ModSpec),
        (m.field = "sku" ∨ m.field = "barcode" ∨ m.field = "title" ∨
         m.field = "vendor" ∨ m.field = "productType") →
        calcValueI cur m = calcValueW cur m) := by
  refine ⟨fun _ _ => rfl, ?_, ?_, ?_⟩
  · intro p rule hf
    have hnot : rule.field ∉ wVariantFields := by
      rcases hf with h | h | h | h | h | h <;> simp [wVariantFields, h]
    unfold evaluateFilterI evaluateFilterW
    rw [if_neg hnot]
    rcases hf with h | h | h | h | h | h <;>
      simp only [h, filterValueI, productProp] <;> rfl
  · intro cur m hf
    rcases hf with h | h <;>
      simp only [calcValueI, calcValueW, getFieldDefI, getFieldDefW, priceField, h] <;>
      rfl
  · intro cur m hf
    rcases hf with h | h | h | h | h <;>
      simp only [calcValueI, calcValueW, getFieldDefI, getFieldDefW, h] <;>
      rfl

/-- Witness for `engines_partial_agreement` at concrete inputs. -/
theorem engines_partial_agreement_witness :
    evaluateFilterI pTwoVar ⟨"title", "contains", str "pro", []⟩ =
      evaluateFilterW pTwoVar ⟨"title", "contains", str "pro", []⟩ ∧
    calcValueI (some (str "19.50")) mIncFive = calcValueW (some (str "19.50")) mIncFive :=
  ⟨engines_partial_agreement.2.1 pTwoVar ⟨"title", "contains", str "pro", []⟩ (Or.inl rfl),
   engines_partial_agreement.2.2.1 (some (str "19.50")) mIncFive (Or.inl rfl)⟩

/-!
## Number bridging lemmas (decimals versus their rational values)
-/

theorem Dec.valEq_iff (a b : Dec) : a.valEq b = true ↔ a.toRat = b.toRat := by
  unfold Dec.valEq Dec.toRat
  rw [beq_iff_eq, div_eq_div_iff (by positivity) (by positivity)]
  constructor <;> intro h <;> exact_mod_cast h

theorem Dec.toRat_nonneg_iff (d : Dec) : 0 ≤ d.toRat ↔ 0 ≤ d.m := by
  unfold Dec.toRat
  rw [le_div_iff₀ (by positivity), zero_mul]
  constructor <;> intro h <;> exact_mod_cast h

theorem Dec.toRat_nonpos_iff (d : Dec) : d.toRat ≤ 0 ↔ d.m ≤ 0 := by
  unfold Dec.toRat
  rw [div_le_iff₀ (by positivity), zero_mul]
  constructor <;> intro h <;> exact_mod_cast h

theorem Dec.floorInt_eq (d : Dec) : d.floorInt = ⌊d.toRat⌋ := by
  unfold Dec.floorInt Dec.toRat
  rw [Int.fdiv_eq_ediv _ (by positivity)]
  rw [show ((10 : ℚ) ^ d.e) = ((10 ^ d.e : ℕ) : ℚ) by push_cast; ring]
  rw [Rat.floor_intCast_div_natCast]
  push_cast
  rfl

theorem Dec.roundInt_eq (d : Dec) : d.roundInt = ⌊d.toRat + 1 / 2⌋ := by
  unfold Dec.roundInt
  rw [Int.fdiv_eq_ediv _ (by positivity)]
  have hv : d.toRat + 1 / 2 = ((2 * d.m + 10 ^ d.e : ℤ) : ℚ) / ((2 * 10 ^ d.e : ℕ) : ℚ) := by
    unfold Dec.toRat
    have h10 : ((10 : ℚ) ^ d.e) ≠ 0 := by positivity
    push_cast
    field_simp
    ring
  rw [hv, Rat.floor_intCast_div_natCast]
  push_cast
  rfl

/-!
## Formatting lemmas for toFixed(2)
-/

theorem toFixed2_cents (n : Nat) :
    toFixed2 ⟨(n : Int), 2⟩ = natDigits (n / 100) ++ '.' :: pad2 (n % 100) := by
  simp only [toFixed2]
  have h100 : ((10 : ℤ) ^ (2 : ℕ)) = 100 := by norm_num
  have h : Int.fdiv (2 * ((n : Int) * 100) + 10 ^ (2 : ℕ)) (2 * 10 ^ (2 : ℕ)) = (n : Int) := by
    rw [Int.fdiv_eq_ediv _ (by norm_num), h100]
    omega
  rw [h]
  simp

theorem toFixed2_max0_add99 (a : Int) (ha : 0 ≤ a) :
    toFixed2 (Dec.max0 ⟨a * 100 + 99, 2⟩) = natDigits a.toNat ++ str ".99" := by
  have hm : Dec.max0 ⟨a * 100 + 99, 2⟩ = ⟨a * 100 + 99, 2⟩ := by
    unfold Dec.max0
    rw [if_neg (by simp only []; omega)]
  have hcast : (⟨a * 100 + 99, 2⟩ : Dec) = ⟨((a.toNat * 100 + 99 : Nat) : Int), 2⟩ := by
    congr 1
    omega
  rw [hm, hcast, toFixed2_cents]
  have h1 : (a.toNat * 100 + 99) / 100 = a.toNat := by omega
  have h2 : (a.toNat * 100 + 99) % 100 = 99 := by omega
  rw [h1, h2, show ('.' :: pad2 99 : Str) = str ".99" from by decide]

theorem toFixed2_max0_add95 (a : Int) (ha : 0 ≤ a) :
    toFixed2 (Dec.max0 ⟨a * 100 + 95, 2⟩) = natDigits a.toNat ++ str ".95" := by
  have hm : Dec.max0 ⟨a * 100 + 95, 2⟩ = ⟨a * 100 + 95, 2⟩ := by
    unfold Dec.max0
    rw [if_neg (by simp only []; omega)]
  have hcast : (⟨a * 100 + 95, 2⟩ : Dec) = ⟨((a.toNat * 100 + 95 : Nat) : Int), 2⟩ := by
    congr 1
    omega
  rw [hm, hcast, toFixed2_cents]
  have h1 : (a.toNat * 100 + 95) / 100 = a.toNat := by omega
  have h2 : (a.toNat * 100 + 95) % 100 = 95 := by omega
  rw [h1, h2, show ('.' :: pad2 95 : Str) = str ".95" from by decide]

theorem toFixed2_int_nonneg (k : Int) (hk : 0 ≤ k) :
    toFixed2 ⟨k, 0⟩ = natDigits k.toNat ++ str ".00" := by
  simp only [toFixed2]
  have h : Int.fdiv (2 * (k * 100) + 10 ^ (0 : ℕ)) (2 * 10 ^ (0 : ℕ)) = k * 100 := by
    rw [Int.fdiv_eq_ediv _ (by norm_num)]
    norm_num
    omega
  rw [h]
  have h1 : (k * 100).toNat = k.toNat * 100 := by omega
  rw [h1]
  have h2 : k.toNat * 100 / 100 = k.toNat := by omega
  have h3 : k.toNat * 100 % 100 = 0 := by omega
  rw [h2, h3, show ('.' :: pad2 0 : Str) = str ".00" from by decide]

theorem toFixed2_max0_nonpos (d : Dec) (h : d.m ≤ 0) : toFixed2 d.max0 = str "0.00" := by
  unfold Dec.max0
  by_cases hlt : d.m < 0
  · rw [if_pos hlt]
    decide
  · rw [if_neg hlt]
    have hm : d.m = 0 := by omega
    simp only [toFixed2, hm]
    have hp : (0 : ℤ) < 10 ^ d.e := by positivity
    have hz : Int.fdiv (2 * ((0 : ℤ) * 100) + 10 ^ d.e) (2 * 10 ^ d.e) = 0 := by
      rw [Int.fdiv_eq_ediv _ (by positivity)]
      apply Int.ediv_eq_zero_of_lt (by omega) (by omega)
    rw [hz]
    decide

/-!
## C4 — numeric rounding and clamping
-/

/-- C4 (confirmed): for a price-like numeric modification whose arithmetic
result is the decimal `r`, the interactive compute function applies the
rounding mode and then clamps at 0 and formats with exactly two decimals:
`round_99`/`round_95` (spelled `"99"`/`"95"` in the source) floor `r` to its
integer part and append `.99`/`.95`; `whole` rounds to the nearest integer
(floor of r + 1/2) and formats it with `.00`; any other mode leaves `r`
untouched before the clamp-and-format step, and a non-positive result
formats as `"0.00"`.  Concretely, compute("19.50", increase_fixed 5) gives
"24.99" under round_99, "25.00" under whole, and a decrease_fixed larger
than the current value gives "0.00". -/
theorem price_rounding_clamping :
    (∀ (current : Option Str) (m : ModSpec) (v r : Dec),
        (m.field = "price" ∨ m.field = "compareAtPrice") →
        parseFloat m.value = some v →
        jsArith m.type (parseFloat (optOr current (str "0"))) v = some r →
        (calcValueI current m = some (formatFixed2 (applyRounding m.rounding (some r))) ∧
         (m.rounding = "99" → 0 ≤ r.toRat →
            calcValueI current m = some (natDigits (⌊r.toRat⌋).toNat ++ str ".99")) ∧
         (m.rounding = "95" → 0 ≤ r.toRat →
            calcValueI current m = some (natDigits (⌊r.toRat⌋).toNat ++ str ".95")) ∧
         (m.rounding = "whole" → 0 ≤ r.toRat →
            calcValueI current m = some (natDigits (⌊r.toRat + 1 / 2⌋).toNat ++ str ".00")) ∧
         (m.rounding ≠ "99" → m.rounding ≠ "95" → m.rounding ≠ "whole" →
            calcValueI current m = some (toFixed2 r.max0)) ∧
         (m.rounding ≠ "99" → m.rounding ≠ "95" → m.rounding ≠ "whole" → r.toRat ≤ 0 →
            calcValueI current m = some (str "0.00")))) ∧
    calcValueI (some (str "19.50")) ⟨"price", "increase_fixed", str "5", [], "99"⟩ =
      some (str "24.99") ∧
    calcValueI (some (str "19.50")) ⟨"price", "increase_fixed", str "5", [], "whole"⟩ =
      some (str "25.00") ∧
    calcValueI (some (str "19.50")) ⟨"price", "decrease_fixed", str "25", [], "none"⟩ =
      some (str "0.00") := by
  refine ⟨?_, by decide, by decide, by decide⟩
  intro current m v r hf hv hr
  have hcalc : calcValueI current m =
      some (formatFixed2 (applyRounding m.rounding (some r))) := by
    rcases hf with h | h <;>
      simp [calcValueI, getFieldDefI, h, priceField, hv, hr]
  refine ⟨hcalc, ?_, ?_, ?_, ?_, ?_⟩
  · intro h99 hpos
    rw [hcalc]
    have ha : 0 ≤ r.floorInt := by
      rw [Dec.floorInt_eq]
      exact Int.le_floor.mpr (by exact_mod_cast hpos)
    simp [applyRounding, formatFixed2, h99]
    rw [toFixed2_max0_add99 r.floorInt ha, Dec.floorInt_eq]
  · intro h95 hpos
    rw [hcalc]
    have ha : 0 ≤ r.floorInt := by
      rw [Dec.floorInt_eq]
      exact Int.le_floor.mpr (by exact_mod_cast hpos)
    simp [applyRounding, formatFixed2, h95]
    rw [toFixed2_max0_add95 r.floorInt ha, Dec.floorInt_eq]
  · intro hw hpos
    rw [hcalc]
    have hk : 0 ≤ r.roundInt := by
      rw [Dec.roundInt_eq]
      refine Int.le_floor.mpr ?_
      push_cast
      linarith
    have hmax : (⟨r.roundInt, 0⟩ : Dec).max0 = ⟨r.roundInt, 0⟩ := by
      unfold Dec.max0
      rw [if_neg (by simp only []; omega)]
    simp [applyRounding, formatFixed2, hw]
    rw [hmax, toFixed2_int_nonneg r.roundInt hk, Dec.roundInt_eq]
    norm_num
  · intro h99 h95 hw
    rw [hcalc]
    simp [applyRounding, formatFixed2, h99, h95, hw]
  · intro h99 h95 hw hneg
    rw [hcalc]
    have := toFixed2_max0_nonpos r ((Dec.toRat_nonpos_iff r).mp hneg)
    simp [applyRounding, formatFixed2, h99, h95, hw, this]

/-- Witness for `price_rounding_clamping`: the general statement applied at
the concrete spec example (current 19.50, increase_fixed 5, round_99). -/
theorem price_rounding_clamping_witness :
    calcValueI (some (str "19.50")) ⟨"price", "increase_fixed", str "5", [], "99"⟩ =
      some (natDigits (⌊(Dec.toRat ⟨2450, 2⟩)⌋).toNat ++ str ".99") :=
  ((price_rounding_clamping.1 (some (str "19.50"))
      ⟨"price", "increase_fixed", str "5", [], "99"⟩ ⟨5, 0⟩ ⟨2450, 2⟩
      (Or.inl rfl) (by decide) (by decide)).2.1 rfl
    (by rw [Dec.toRat_nonneg_iff]; decide))

/-!
## Registry case analysis and planner emission lemmas
-/

theorem getFieldDefI_cases (f : String) (fd : FieldDef) (h : getFieldDefI f = some fd) :
    (f = "price" ∧ fd = ⟨"numeric", "variant"⟩) ∨
    (f = "compareAtPrice" ∧ fd = ⟨"numeric", "variant"⟩) ∨
    (f = "sku" ∧ fd = ⟨"text", "variant"⟩) ∨
    (f = "barcode" ∧ fd = ⟨"text", "variant"⟩) ∨
    (f = "weight" ∧ fd = ⟨"numeric", "variant"⟩) ∨
    (f = "title" ∧ fd = ⟨"text", "product"⟩) ∨
    (f = "vendor" ∧ fd = ⟨"text", "product"⟩) ∨
    (f = "productType" ∧ fd = ⟨"text", "product"⟩) ∨
    (f = "tags" ∧ fd = ⟨"tags", "product"⟩) ∨
    (f = "status" ∧ fd = ⟨"select", "product"⟩) ∨
    (f = "templateSuffix" ∧ fd = ⟨"text", "product"⟩) := by
  unfold getFieldDefI at h
  by_cases h1 : f = "price"
  · rw [if_pos h1] at h
    exact Or.inl ⟨h1, (Option.some.inj h).symm⟩
  rw [if_neg h1] at h
  by_cases h2 : f = "compareAtPrice"
  · rw [if_pos h2] at h
    exact Or.inr (Or.inl ⟨h2, (Option.some.inj h).symm⟩)
  rw [if_neg h2] at h
  by_cases h3 : f = "sku"
  · rw [if_pos h3] at h
    exact Or.inr (Or.inr (Or.inl ⟨h3, (Option.some.inj h).symm⟩))
  rw [if_neg h3] at h
  by_cases h4 : f = "barcode"
  · rw [if_pos h4] at h
    exact Or.inr (Or.inr (Or.inr (Or.inl ⟨h4, (Option.some.inj h).symm⟩)))
  rw [if_neg h4] at h
  by_cases h5 : f = "weight"
  · rw [if_pos h5] at h
    exact Or.inr (Or.inr (Or.inr (Or.inr (Or.inl ⟨h5, (Option.some.inj h).symm⟩))))
  rw [if_neg h5] at h
  by_cases h6 : f = "title"
  · rw [if_pos h6] at h
    exact Or.inr (Or.inr (Or.inr (Or.inr (Or.inr
      (Or.inl ⟨h6, (Option.some.inj h).symm⟩)))))
  rw [if_neg h6] at h
  by_cases h7 : f = "vendor"
  · rw [if_pos h7] at h
    exact Or.inr (Or.inr (Or.inr (Or.inr (Or.inr (Or.inr
      (Or.inl ⟨h7, (Option.some.inj h).symm⟩))))))
  rw [if_neg h7] at h
  by_cases h8 : f = "productType"
  · rw [if_pos h8] at h
    exact Or.inr (Or.inr (Or.inr (Or.inr (Or.inr (Or.inr (Or.inr
      (Or.inl ⟨h8, (Option.some.inj h).symm⟩)))))))
  rw [if_neg h8] at h
  by_cases h9 : f = "tags"
  · rw [if_pos h9] at h
    exact Or.inr (Or.inr (Or.inr (Or.inr (Or.inr (Or.inr (Or.inr (Or.inr
      (Or.inl ⟨h9, (Option.some.inj h).symm⟩))))))))
  rw [if_neg h9] at h
  by_cases h10 : f = "status"
  · rw [if_pos h10] at h
    exact Or.inr (Or.inr (Or.inr (Or.inr (Or.inr (Or.inr (Or.inr (Or.inr (Or.inr
      (Or.inl ⟨h10, (Option.some.inj h).symm⟩)))))))))
  rw [if_neg h10] at h
  by_cases h11 : f = "templateSuffix"
  · rw [if_pos h11] at h
    exact Or.inr (Or.inr (Or.inr (Or.inr (Or.inr (Or.inr (Or.inr (Or.inr (Or.inr
      (Or.inr ⟨h11, (Option.some.inj h).symm⟩)))))))))
  rw [if_neg h11] at h
  exact Option.noConfusion h

theorem productLevel_not_numeric (f : String) (fd : FieldDef)
    (h : getFieldDefI f = some fd) (hl : fd.level = "product") :
    fd.category ≠ "numeric" := by
  rcases getFieldDefI_cases f fd h with
    ⟨_, rfl⟩ | ⟨_, rfl⟩ | ⟨_, rfl⟩ | ⟨_, rfl⟩ | ⟨_, rfl⟩ | ⟨_, rfl⟩ |
    ⟨_, rfl⟩ | ⟨_, rfl⟩ | ⟨_, rfl⟩ | ⟨_, rfl⟩ | ⟨_, rfl⟩ <;> simp_all

theorem noopEq_of_numeric (f : String) (fd : FieldDef) (h : getFieldDefI f = some fd)
    (hc : fd.category = "numeric") (a b : Str) :
    noopEq f a b = nEq (parseFloat a) (parseFloat b) := by
  unfold noopEq fieldEqNum
  rw [h]
  simp [hc]

theorem noopEq_of_not_numeric (f : String) (fd : FieldDef) (h : getFieldDefI f = some fd)
    (hc : fd.category ≠ "numeric") (a b : Str) :
    noopEq f a b = (a == b) := by
  unfold noopEq fieldEqNum
  rw [h]
  simp [hc]

theorem planProductChange_some (p : Product) (m : ModSpec) (c : Change)
    (h : planProductChange p m = some c) :
    c.field = m.field ∧ c.newValue ≠ c.oldValue := by
  unfold planProductChange at h
  rcases heq : calcValueI
      (some (if m.field = "tags" then joinS (str ", ") p.tags else productProp p m.field)) m
    with _ | nv
  · rw [heq, Option.none_bind] at h
    cases h
  · rw [heq, Option.some_bind] at h
    by_cases hnv :
        nv = (if m.field = "tags" then joinS (str ", ") p.tags else productProp p m.field)
    · rw [if_pos hnv] at h
      cases h
    · rw [if_neg hnv] at h
      cases Option.some.inj h
      exact ⟨rfl, hnv⟩

theorem planVariantChange_some (p : Product) (fd : FieldDef) (m : ModSpec) (v : Variant)
    (c : Change) (h : planVariantChange p fd m v = some c) :
    c.field = m.field ∧
    (fd.category = "numeric" → nEq (parseFloat c.oldValue) (parseFloat c.newValue) = false) ∧
    (fd.category ≠ "numeric" → c.oldValue ≠ c.newValue) := by
  unfold planVariantChange at h
  by_cases hskip : jsFalsy (accessorI m.field v) = true ∧ m.type ≠ "exact" ∧
      m.type ≠ "set" ∧ fd.category = "numeric"
  · rw [if_pos hskip] at h
    cases h
  · rw [if_neg hskip] at h
    rcases heq : calcValueI
        (some (optOr (accessorI m.field v) (if fd.category = "numeric" then str "0" else []))) m
      with _ | nv
    · rw [heq, Option.none_bind] at h
      cases h
    · rw [heq, Option.some_bind] at h
      by_cases hcat : fd.category = "numeric"
      · rw [if_pos hcat] at h
        by_cases hsup : nEq (parseFloat (optOr (accessorI m.field v) (str "0")))
            (parseFloat nv) = true
        · rw [if_pos hsup] at h
          cases h
        · rw [if_neg hsup] at h
          cases Option.some.inj h
          refine ⟨rfl, fun _ => ?_, fun hn => absurd hcat hn⟩
          simp only [hcat, if_pos]
          simpa using hsup
      · rw [if_neg hcat] at h
        by_cases hsup :
            optOr (accessorI m.field v) [] =
              nv
        · rw [if_pos hsup] at h
          cases h
        · rw [if_neg hsup] at h
          cases Option.some.inj h
          refine ⟨rfl, fun hn => absurd hn hcat, fun _ => ?_⟩
          simpa [hcat] using hsup

/-!
## C5 — no-op suppression
-/

/-- C5 (confirmed): the planner never emits a Change whose old and new value
coincide under field-appropriate equality — parsed-float equality for
numeric fields and string equality otherwise — and planning an `exact`
price 10.00 against a product whose variant is already priced "10.00"
yields the empty changeset. -/
theorem noop_suppression :
    (∀ (E : List Product) (M : List ModSpec) (c : Change),
        c ∈ planChanges E M → noopEq c.field c.oldValue c.newValue = false) ∧
    planChanges [pTen] [mExactTen] = [] := by
  refine ⟨?_, by decide⟩
  intro E M c hc
  unfold planChanges at hc
  rw [List.mem_flatMap] at hc
  obtain ⟨p, _, hc⟩ := hc
  rw [List.mem_flatMap] at hc
  obtain ⟨m, _, hc⟩ := hc
  rcases hdef : getFieldDefI m.field with _ | fd
  · simp only [planFor, hdef] at hc
    cases hc
  · simp only [planFor, hdef] at hc
    by_cases hlev : fd.level = "product"
    · rw [if_pos hlev] at hc
      rcases hPC : planProductChange p m with _ | c'
      · rw [hPC] at hc
        cases hc
      · rw [hPC] at hc
        have hcc : c = c' := by simpa using hc
        subst hcc
        obtain ⟨hf, hne⟩ := planProductChange_some p m c hPC
        rw [hf, noopEq_of_not_numeric m.field fd hdef (productLevel_not_numeric _ _ hdef hlev)]
        simpa using fun h => hne h.symm
    · rw [if_neg hlev] at hc
      rw [List.mem_filterMap] at hc
      obtain ⟨v, _, hPV⟩ := hc
      obtain ⟨hf, hnum, hnnum⟩ := planVariantChange_some p fd m v c hPV
      by_cases hcat : fd.category = "numeric"
      · rw [hf, noopEq_of_numeric m.field fd hdef hcat]
        exact hnum hcat
      · rw [hf, noopEq_of_not_numeric m.field fd hdef hcat]
        simpa using hnnum hcat

/-- Witness for `noop_suppression`: the Change emitted by increase_fixed 5 on
a 10.00 variant relates "10.00" and "15.00", which differ under parsed-float
equality. -/
theorem noop_suppression_witness :
    noopEq "price" (str "10.00") (str "15.00") = false :=
  noop_suppression.1 [pTen] [mIncFive]
    ⟨str "p1", str "Prod", some (str "v1"), some (str "Default"), "price",
     str "10.00", str "15.00", "increase_fixed"⟩
    (by decide)

/-!
## Trim, split and join lemmas for the tag machinery
-/

theorem dropWhile_idem (p : Char → Bool) (l : Str) :
    List.dropWhile p (List.dropWhile p l) = List.dropWhile p l := by
  induction l with
  | nil => rfl
  | cons c t ih => by_cases hc : p c <;> simp [List.dropWhile_cons, hc, ih]

theorem jsTrim_eq_trimR_trimL (s : Str) : jsTrim s = trimR (trimL s) := rfl

theorem trimL_idem (s : Str) : trimL (trimL s) = trimL s := dropWhile_idem isWS s

theorem trimR_idem (s : Str) : trimR (trimR s) = trimR s := by
  unfold trimR
  rw [List.reverse_reverse, dropWhile_idem]

theorem trimL_head_not_ws (s : Str) (c : Char) (u : Str) (h : trimL s = c :: u) :
    isWS c = false := by
  induction s with
  | nil => cases h
  | cons a t ih =>
    by_cases ha : isWS a
    · rw [show trimL (a :: t) = trimL t by simp [trimL, List.dropWhile_cons, ha]] at h
      exact ih h
    · rw [show trimL (a :: t) = a :: t by simp [trimL, List.dropWhile_cons, ha]] at h
      cases h
      simpa using ha

theorem dropWhile_append_last (l : Str) (c : Char) (hc : isWS c = false) :
    ∃ w, List.dropWhile isWS (l ++ [c]) = w ++ [c] := by
  induction l with
  | nil => exact ⟨[], by simp [List.dropWhile_cons, hc]⟩
  | cons a t ih =>
    by_cases ha : isWS a
    · obtain ⟨w, hw⟩ := ih
      exact ⟨w, by simp [List.dropWhile_cons, ha, hw]⟩
    · exact ⟨a :: t, by simp [List.dropWhile_cons, ha]⟩

theorem trimR_head_stable (c : Char) (hc : isWS c = false) (u : Str) :
    ∃ u', trimR (c :: u) = c :: u' := by
  unfold trimR
  obtain ⟨w, hw⟩ := dropWhile_append_last u.reverse c hc
  rw [show (c :: u).reverse = u.reverse ++ [c] by simp, hw]
  exact ⟨w.reverse, by simp⟩

theorem trimL_jsTrim (s : Str) : trimL (jsTrim s) = jsTrim s := by
  rw [jsTrim_eq_trimR_trimL]
  rcases htl : trimL s with _ | ⟨c, u⟩
  · rfl
  · have hc := trimL_head_not_ws s c u htl
    obtain ⟨u', hu'⟩ := trimR_head_stable c hc u
    rw [hu']
    simp [trimL, List.dropWhile_cons, hc]

theorem jsTrim_idem (s : Str) : jsTrim (jsTrim s) = jsTrim s := by
  rw [jsTrim_eq_trimR_trimL, trimL_jsTrim, jsTrim_eq_trimR_trimL, trimR_idem]

theorem mem_of_mem_jsTrim (s : Str) (x : Char) (h : x ∈ jsTrim s) : x ∈ s := by
  unfold jsTrim at h
  rw [List.mem_reverse] at h
  have h1 := (List.dropWhile_sublist isWS).mem h
  rw [List.mem_reverse] at h1
  exact (List.dropWhile_sublist isWS).mem h1

theorem jsTrim_cons_ws (c : Char) (h : isWS c = true) (u : Str) :
    jsTrim (c :: u) = jsTrim u := by
  unfold jsTrim
  simp [List.dropWhile_cons, h]

theorem splitNE_ne_nil (sep l : Str) : splitNE sep l ≠ [] := by
  cases l with
  | nil => simp [splitNE_nil]
  | cons c rest =>
    rw [splitNE_cons]
    by_cases hc : sep ≠ [] ∧ sep.isPrefixOf (c :: rest)
    · simp [hc]
    · rw [if_neg hc]
      rcases splitNE sep rest with _ | ⟨h, t⟩ <;> simp

theorem splitNE_char_cons (c a : Char) (rest : Str) :
    splitNE [c] (a :: rest) =
      if a = c then [] :: splitNE [c] rest
      else
        match splitNE [c] rest with
        | [] => [[a]]
        | h :: t => (a :: h) :: t := by
  rw [splitNE_cons]
  by_cases h : a = c
  · subst h
    rw [if_pos (by simp [List.isPrefixOf]), if_pos rfl]
    simp
  · rw [if_neg (by simp [List.isPrefixOf]; intro hca; exact absurd hca.symm h), if_neg h]

theorem splitNE_char_no_sep (c : Char) (l : Str) (h : c ∉ l) : splitNE [c] l = [l] := by
  induction l with
  | nil => rfl
  | cons a rest ih =>
    have ha : a ≠ c := fun hac => h (hac ▸ List.mem_cons_self a rest)
    have hrest : c ∉ rest := fun hr => h (List.mem_cons_of_mem a hr)
    rw [splitNE_char_cons, if_neg ha, ih hrest]

theorem splitNE_char_append (c : Char) (x t : Str) (hx : c ∉ x) :
    splitNE [c] (x ++ c :: t) = x :: splitNE [c] t := by
  induction x with
  | nil => simp [splitNE_char_cons]
  | cons a x' ih =>
    have ha : a ≠ c := fun hac => hx (hac ▸ List.mem_cons_self a x')
    have hx' : c ∉ x' := fun hr => hx (List.mem_cons_of_mem a hr)
    rw [List.cons_append, splitNE_char_cons, if_neg ha, ih hx']

theorem splitNE_char_mem (c : Char) (l piece : Str) (h : piece ∈ splitNE [c] l) :
    c ∉ piece := by
  induction l generalizing piece with
  | nil =>
    rw [splitNE_nil] at h
    rcases List.mem_singleton.mp h with rfl
    simp
  | cons a rest ih =>
    rw [splitNE_char_cons] at h
    by_cases hac : a = c
    · rw [if_pos hac] at h
      rcases List.mem_cons.mp h with rfl | h'
      · simp
      · exact ih piece h'
    · rw [if_neg hac] at h
      rcases hsp : splitNE [c] rest with _ | ⟨hd, tl⟩
      · exact absurd hsp (splitNE_ne_nil [c] rest)
      · rw [hsp] at h
        rcases List.mem_cons.mp h with rfl | h'
        · intro hmem
          rcases List.mem_cons.mp hmem with rfl | hmem'
          · exact hac rfl
          · exact ih hd (hsp ▸ List.mem_cons_self hd tl) hmem'
        · exact ih piece (hsp ▸ List.mem_cons_of_mem hd h')

theorem optOr_some_nil (v : Str) : optOr (some v) [] = v := by
  unfold optOr
  split <;> simp_all

theorem jsOrS_nil (v : Str) : jsOrS v [] = v := by
  unfold jsOrS
  split <;> simp_all

theorem contains_iff_mem (L : List Str) (a : Str) : L.contains a = true ↔ a ∈ L := by
  simp [List.contains_iff_exists_mem_beq]

theorem normTags_splitNE (s : Str) :
    normTags s = ((splitNE [','] s).map jsTrim).filter (fun t => t ≠ []) := by
  unfold normTags jsSplit
  rw [show (str "," : Str) = [','] from by decide]
  simp

theorem normTags_clean (s : Str) : ∀ t ∈ normTags s, cleanTag t := by
  intro t ht
  rw [normTags_splitNE, List.mem_filter] at ht
  obtain ⟨ht, hne⟩ := ht
  rw [List.mem_map] at ht
  obtain ⟨piece, hpiece, rfl⟩ := ht
  refine ⟨by simpa using hne, jsTrim_idem piece, ?_⟩
  intro hc
  exact splitNE_char_mem ',' s piece hpiece (mem_of_mem_jsTrim piece ',' hc)

theorem normTags_space (s : Str) : normTags (' ' :: s) = normTags s := by
  rw [normTags_splitNE, normTags_splitNE]
  rcases hsp : splitNE [','] s with _ | ⟨h, t⟩
  · exact absurd hsp (splitNE_ne_nil _ _)
  · rw [splitNE_char_cons, if_neg (by decide), hsp, List.map_cons, List.map_cons,
        jsTrim_cons_ws ' ' (by decide) h]

theorem normTags_join (l : List Str) (h : ∀ t ∈ l, cleanTag t) :
    normTags (joinS (str ", ") l) = l := by
  induction l with
  | nil => decide
  | cons x xs ih =>
    cases xs with
    | nil =>
      obtain ⟨hne, htrim, hcomma⟩ := h x (List.mem_cons_self x [])
      show normTags x = [x]
      rw [normTags_splitNE, splitNE_char_no_sep ',' x hcomma, List.map_cons, List.map_nil,
          htrim, List.filter_cons, if_pos (by simpa using hne)]
      rfl
    | cons y t =>
      obtain ⟨hne, htrim, hcomma⟩ := h x (List.mem_cons_self x (y :: t))
      have hrest : ∀ u ∈ y :: t, cleanTag u := fun u hu => h u (List.mem_cons_of_mem _ hu)
      have hjoin : joinS (str ", ") (x :: y :: t) =
          x ++ ',' :: ' ' :: joinS (str ", ") (y :: t) := by
        show x ++ str ", " ++ joinS (str ", ") (y :: t) = _
        rw [show (str ", " : Str) = [',', ' '] from by decide]
        simp [List.append_assoc]
      rw [hjoin, normTags_splitNE,
          splitNE_char_append ',' x (' ' :: joinS (str ", ") (y :: t)) hcomma,
          List.map_cons, List.filter_cons, htrim, if_pos (by simpa using hne)]
      congr 1
      have hsp := normTags_space (joinS (str ", ") (y :: t))
      rw [normTags_splitNE, normTags_splitNE] at hsp
      rw [hsp, ← normTags_splitNE]
      exact ih hrest

/-!
## C6 — tag removal case sensitivity
-/

/-- C6 counterexample: the WEBHOOK compute function removes tags
case-sensitively: current tags "sale, clearance" with remove "Sale" are left
unchanged, not reduced to "clearance".  This refutes the claim that removal
is case-insensitive in both compute functions. -/
theorem webhook_tag_removal_case_sensitive :
    calcValueW (some (str "sale, clearance")) mTagsRemoveSale =
        some (str "sale, clearance") ∧
    calcValueW (some (str "sale, clearance")) mTagsRemoveSale ≠
        some (str "clearance") := by
  constructor <;> decide

/-- C6 amended (proved): in the INTERACTIVE compute function, a current tag
survives a remove modification iff its lowercasing is not among the
lowercased, trimmed entries of the spec's value — i.e. removal is
case-insensitive — and concretely "sale, clearance" minus "Sale" is
"clearance".  In the webhook compute function the same filter matches tags
case-sensitively against the normalized spec value. -/
theorem tag_removal_semantics :
    (∀ (cur : Str) (m : ModSpec) (res : Str),
        m.field = "tags" → m.type = "remove" →
        calcValueI (some cur) m = some res →
        ∀ t, t ∈ normTags res ↔
          (t ∈ normTags cur ∧
           jsLower t ∉ (jsSplit m.value (str ",")).map (fun u => jsLower (jsTrim u)))) ∧
    (∀ (cur : Str) (m : ModSpec) (res : Str),
        m.field = "tags" → m.type = "remove" →
        calcValueW (some cur) m = some res →
        ∀ t, t ∈ normTags res ↔ (t ∈ normTags cur ∧ t ∉ normTags m.value)) ∧
    calcValueI (some (str "sale, clearance")) mTagsRemoveSale = some (str "clearance") := by
  refine ⟨?_, ?_, by decide⟩
  · intro cur m res hf hty hcalc t
    have hres : res = joinS (str ", ")
        ((normTags cur).filter (fun u =>
          ! ((jsSplit m.value (str ",")).map (fun w => jsLower (jsTrim w))).contains
              (jsLower u))) := by
      simp only [calcValueI, getFieldDefI, hf, hty] at hcalc
      rw [optOr_some_nil] at hcalc
      exact (Option.some.inj hcalc).symm
    subst hres
    have hclean : ∀ u ∈ (normTags cur).filter (fun u =>
        ! ((jsSplit m.value (str ",")).map (fun w => jsLower (jsTrim w))).contains
            (jsLower u)), cleanTag u :=
      fun u hu => normTags_clean cur u (List.mem_filter.mp hu).1
    rw [normTags_join _ hclean, List.mem_filter]
    constructor
    · rintro ⟨hmem, hpred⟩
      refine ⟨hmem, fun hin => ?_⟩
      rw [Bool.not_eq_true', ← Bool.not_eq_true] at hpred
      exact hpred ((contains_iff_mem _ _).mpr hin)
    · rintro ⟨hmem, hnin⟩
      refine ⟨hmem, ?_⟩
      rw [Bool.not_eq_true']
      rcases hcon : ((jsSplit m.value (str ",")).map (fun w => jsLower (jsTrim w))).contains
          (jsLower t) with _ | _
      · rfl
      · exact absurd ((contains_iff_mem _ _).mp hcon) hnin
  · intro cur m res hf hty hcalc t
    have hres : res = joinS (str ", ")
        ((normTags cur).filter (fun u => ! (normTags m.value).contains u)) := by
      simp only [calcValueW, getFieldDefW, hf, hty] at hcalc
      rw [optOr_some_nil, jsOrS_nil] at hcalc
      exact (Option.some.inj hcalc).symm
    subst hres
    have hclean : ∀ u ∈ (normTags cur).filter (fun u => ! (normTags m.value).contains u),
        cleanTag u :=
      fun u hu => normTags_clean cur u (List.mem_filter.mp hu).1
    rw [normTags_join _ hclean, List.mem_filter]
    constructor
    · rintro ⟨hmem, hpred⟩
      refine ⟨hmem, fun hin => ?_⟩
      rw [Bool.not_eq_true', ← Bool.not_eq_true] at hpred
      exact hpred ((contains_iff_mem _ _).mpr hin)
    · rintro ⟨hmem, hnin⟩
      refine ⟨hmem, ?_⟩
      rw [Bool.not_eq_true']
      rcases hcon : (normTags m.value).contains t with _ | _
      · rfl
      · exact absurd ((contains_iff_mem _ _).mp hcon) hnin

/-- Witness for `tag_removal_semantics` at the concrete spec example. -/
theorem tag_removal_semantics_witness :
    str "clearance" ∈ normTags (str "clearance") ↔
      (str "clearance" ∈ normTags (str "sale, clearance") ∧
       jsLower (str "clearance") ∉
         (jsSplit mTagsRemoveSale.value (str ",")).map (fun u => jsLower (jsTrim u))) :=
  tag_removal_semantics.1 (str "sale, clearance") mTagsRemoveSale (str "clearance")
    rfl rfl (by decide) (str "clearance")

/-!
## C9 — reversal construction
-/

theorem mem_groupByProduct (changes : List Change) (pg : Str × List Change)
    (h : pg ∈ groupByProduct changes) :
    pg.2 = changes.filter (fun c => c.productId = pg.1) := by
  unfold groupByProduct at h
  rw [List.mem_map] at h
  obtain ⟨k, _, rfl⟩ := h
  rfl

theorem groupByProduct_of_mem (changes : List Change) (c : Change) (h : c ∈ changes) :
    (c.productId, changes.filter (fun x => x.productId = c.productId)) ∈
      groupByProduct changes := by
  unfold groupByProduct
  rw [List.mem_map]
  refine ⟨c.productId, ?_, rfl⟩
  unfold groupKeys
  rw [mem_dedupe, List.mem_map]
  exact ⟨c, h, rfl⟩

theorem revertAssignOfChange_eq (c : Change) (h : c.field ∈ revertProductFields) :
    revertAssignOfChange c = some (revertConvP c) := by
  simp only [revertProductFields, List.mem_cons, List.not_mem_nil, or_false] at h
  rcases h with h | h | h | h | h <;>
    simp [revertAssignOfChange, revertConvP, h]

theorem revertVarFields_disjoint (f : String) (h : f ∈ revertVarFields) :
    f ∉ revertProductFields := by
  simp only [revertVarFields, List.mem_cons, List.not_mem_nil, or_false] at h
  rcases h with h | h | h | h <;> simp [revertProductFields, h]

theorem revertVariantAssign_eq (c : Change) (h : c.field ∈ revertVarFields) :
    revertVariantAssign c = [revertConvV c] := by
  simp only [revertVarFields, List.mem_cons, List.not_mem_nil, or_false] at h
  rcases h with h | h | h | h <;>
    simp [revertVariantAssign, revertConvV, h]

theorem revertVariantAssign_nil (c : Change) (h : c.field ∉ revertVarFields) :
    revertVariantAssign c = [] := by
  unfold revertVariantAssign
  rw [if_neg]
  intro hc
  apply h
  rcases hc with h' | h' | h' | h' <;> simp [revertVarFields, h']

/-- C9 (confirmed): the revert path issues, for every change on one of the
five entity-level fields title/vendor/productType/status/tags, a
product-level write carrying exactly that change's `oldValue` (tags as the
split/trimmed list of the old value), and for every change on
price/compareAtPrice/sku/barcode a variant-level write of its `oldValue`;
no write ever targets templateSuffix or weight; and the construction is a
pure structural transform — it does not depend on the changes' `newValue`
(no equality re-check, no re-fetch). -/
theorem revert_swaps_old_values :
    ∀ (changes : List Change),
      (∀ x, x ∈ (revertRequests changes).productAssigns ↔
          ∃ c ∈ changes, c.field ∈ revertProductFields ∧ x = revertConvP c) ∧
      (∀ x, x ∈ (revertRequests changes).variantAssigns ↔
          ∃ c ∈ changes, c.field ∈ revertVarFields ∧ x = revertConvV c) ∧
      (∀ x ∈ (revertRequests changes).productAssigns,
          x.2.1 ≠ "templateSuffix" ∧ x.2.1 ≠ "weight") ∧
      (∀ x ∈ (revertRequests changes).variantAssigns,
          x.2.2.1 ≠ "weight" ∧ x.2.2.1 ≠ "templateSuffix") ∧
      (∀ f : Change → Str,
          revertRequests (changes.map (fun c => { c with newValue := f c })) =
            revertRequests changes) := by
  intro changes
  have hprod : ∀ x, x ∈ (revertRequests changes).productAssigns ↔
      ∃ c ∈ changes, c.field ∈ revertProductFields ∧ x = revertConvP c := by
    intro x
    unfold revertRequests
    simp only [List.mem_flatMap, List.mem_filterMap, List.mem_filter]
    constructor
    · rintro ⟨pg, hpg, c, ⟨⟨hcg, hcf⟩, hassign⟩⟩
      have hc : c ∈ changes := by
        rw [mem_groupByProduct changes pg hpg] at hcg
        exact (List.mem_filter.mp hcg).1
      have hcf' : c.field ∈ revertProductFields := by simpa using hcf
      rw [revertAssignOfChange_eq c hcf'] at hassign
      exact ⟨c, hc, hcf', (Option.some.inj hassign).symm⟩
    · rintro ⟨c, hc, hcf, rfl⟩
      refine ⟨(c.productId, changes.filter (fun x => x.productId = c.productId)),
        groupByProduct_of_mem changes c hc, c, ⟨⟨?_, by simpa using hcf⟩,
        revertAssignOfChange_eq c hcf⟩⟩
      rw [List.mem_filter]
      exact ⟨hc, by simp⟩
  have hvar : ∀ x, x ∈ (revertRequests changes).variantAssigns ↔
      ∃ c ∈ changes, c.field ∈ revertVarFields ∧ x = revertConvV c := by
    intro x
    unfold revertRequests
    simp only [List.mem_flatMap, List.mem_filter]
    constructor
    · rintro ⟨pg, hpg, c, ⟨⟨hcg, _⟩, hassign⟩⟩
      have hc : c ∈ changes := by
        rw [mem_groupByProduct changes pg hpg] at hcg
        exact (List.mem_filter.mp hcg).1
      by_cases hvf : c.field ∈ revertVarFields
      · rw [revertVariantAssign_eq c hvf] at hassign
        exact ⟨c, hc, hvf, List.mem_singleton.mp hassign⟩
      · rw [revertVariantAssign_nil c hvf] at hassign
        cases hassign
    · rintro ⟨c, hc, hcf, rfl⟩
      refine ⟨(c.productId, changes.filter (fun x => x.productId = c.productId)),
        groupByProduct_of_mem changes c hc, c, ⟨⟨?_, ?_⟩, ?_⟩⟩
      · rw [List.mem_filter]
        exact ⟨hc, by simp⟩
      · simpa using revertVarFields_disjoint c.field hcf
      · rw [revertVariantAssign_eq c hcf]
        exact List.mem_singleton.mpr rfl
  refine ⟨hprod, hvar, ?_, ?_, ?_⟩
  · intro x hx
    obtain ⟨c, _, hcf, rfl⟩ := (hprod x).mp hx
    simp only [revertProductFields, List.mem_cons, List.not_mem_nil, or_false] at hcf
    rcases hcf with h | h | h | h | h <;> simp [revertConvP, h]
  · intro x hx
    obtain ⟨c, _, hcf, rfl⟩ := (hvar x).mp hx
    simp only [revertVarFields, List.mem_cons, List.not_mem_nil, or_false] at hcf
    rcases hcf with h | h | h | h <;> simp [revertConvV, h]
  · intro f
    have hkeys : groupKeys (changes.map (fun c => { c with newValue := f c })) =
        groupKeys changes := by
      unfold groupKeys
      rw [List.map_map]
      rfl
    have hgroups : groupByProduct (changes.map (fun c => { c with newValue := f c })) =
        (groupByProduct changes).map
          (fun pg => (pg.1, pg.2.map (fun c => { c with newValue := f c }))) := by
      unfold groupByProduct
      rw [hkeys, List.map_map]
      apply List.map_congr_left
      intro k _
      simp only [Function.comp]
      rw [List.filter_map]
      rfl
    unfold revertRequests
    rw [hgroups]
    congr 1
    · rw [List.flatMap_map]
      congr 1
      funext pg
      rw [List.filter_map, List.filterMap_map]
      rfl
    · rw [List.flatMap_map]
      congr 1
      funext pg
      rw [List.filter_map, List.flatMap_map]
      rfl
    · rw [List.flatMap_map]
      congr 1
      funext pg
      rw [List.filter_map, List.map_map]
      rfl

/-- Witness for `revert_swaps_old_values`: the vendor change's old value is
written back at revert. -/
theorem revert_swaps_old_values_witness :
    (str "p9", "vendor", RevVal.s (str "OldV")) ∈
      (revertRequests [chVendor]).productAssigns :=
  ((revert_swaps_old_values [chVendor]).1 _).mpr
    ⟨chVendor, List.mem_singleton.mpr rfl, by decide, rfl⟩

/-!
## C7: failure isolation in the batch executor
-/

theorem processVariantStep_resp (cat : Catalog) (pid : Str) (uev : List Str)
    (h : cat pid true = .resp uev) (g vl : List Change) (t0 : Str) (a : GroupRes) :
    processVariantStep cat pid g vl t0 a =
      if vl = [] then a
      else if uev = [] then
        ⟨a.succ + vl.length, a.err, a.errors, a.hist ++ vl.map histRecV,
         a.issued ++ [(pid, true)]⟩
      else
        ⟨a.succ, a.err + vl.length, a.errors ++ [⟨t0, uev⟩], a.hist,
         a.issued ++ [(pid, true)]⟩ := by
  unfold processVariantStep
  rw [h]
  by_cases hv : vl = [] <;> by_cases hu : uev = [] <;> simp [hv, hu]

theorem processVariantStep_thrown (cat : Catalog) (pid : Str) (msg : Str)
    (h : cat pid true = .thrown msg) (g vl : List Change) (t0 : Str) (a : GroupRes) :
    processVariantStep cat pid g vl t0 a =
      if vl = [] then a
      else
        ⟨a.succ, a.err + g.length, a.errors ++ [⟨t0, [msg]⟩], a.hist,
         a.issued ++ [(pid, true)]⟩ := by
  unfold processVariantStep
  rw [h]

theorem processGroup_eq (cat : Catalog) (pid : Str) (g : List Change) :
    processGroup cat pid g =
      if plOf g = [] then
        processVariantStep cat pid g (vlOf g) (t0Of g) ⟨0, 0, [], [], []⟩
      else
        match cat pid false with
        | .thrown msg => ⟨0, g.length, [⟨t0Of g, [msg]⟩], [], [(pid, false)]⟩
        | .resp ue =>
          if ue ≠ [] then
            processVariantStep cat pid g (vlOf g) (t0Of g)
              ⟨0, (plOf g).length, [⟨t0Of g, ue⟩], [], [(pid, false)]⟩
          else
            processVariantStep cat pid g (vlOf g) (t0Of g)
              ⟨(plOf g).length, 0, [], (plOf g).map histRecP, [(pid, false)]⟩ := rfl

theorem execFold_components (cat : Catalog) :
    ∀ (gs : List (Str × List Change)) (a : ExecReport),
      (gs.foldl
        (fun (a : ExecReport) pg =>
          let r := processGroup cat pg.1 pg.2
          ⟨a.succ + r.succ, a.err + r.err, a.errors ++ r.errors, a.hist ++ r.hist,
           a.issued ++ r.issued, 0⟩) a) =
      ⟨a.succ + (gs.map (fun pg => (processGroup cat pg.1 pg.2).succ)).sum,
       a.err + (gs.map (fun pg => (processGroup cat pg.1 pg.2).err)).sum,
       a.errors ++ (gs.map (fun pg => (processGroup cat pg.1 pg.2).errors)).flatten,
       a.hist ++ (gs.map (fun pg => (processGroup cat pg.1 pg.2).hist)).flatten,
       a.issued ++ (gs.map (fun pg => (processGroup cat pg.1 pg.2).issued)).flatten,
       if gs = [] then a.totalProducts else 0⟩ := by
  intro gs
  induction gs with
  | nil =>
    intro a
    simp
  | cons pg t ih =>
    intro a
    simp only [List.foldl_cons]
    rw [ih]
    simp [List.flatten_cons, List.append_assoc, Nat.add_assoc, ite_self]

/-- C7: counterexample — when the variant-level request of a group throws, the
executor's catch adds the WHOLE group's change count to the error count, not
the failed request's size: with one product-level and one variant-level change
on the same entity and a catalog whose variant-level call throws, the error
count is 2 although the failed (variant-level) request carries only 1 change,
and the success count is 1 (total 3 > 2 changes). -/
theorem executor_exception_overcounts :
    ((executeChanges catThrowVariant [chTitle, chPrice]).err = 2 ∧
     (vlOf [chTitle, chPrice]).length = 1) ∧
    (executeChanges catThrowVariant [chTitle, chPrice]).succ = 1 := by
  decide

/-- C7 (amended): failure isolation in the batch executor.  (1) The execution
report is the component-wise sum/concatenation of the independent per-group
results, so one entity's failure never affects another entity's processing.
(2) When neither of a group's requests throws, each request that reports user
errors adds exactly its own change count to the error count and records one
per-entity error entry, while each clean request adds its change count to the
success count and persists its changes to the audit store.  (3) When the
variant-level request throws, the catch records one error entry and adds the
WHOLE group's change count (not the failed request's size) to the error count,
while the product-level half's successes and audit records are kept.  (4) When
the product-level request throws, the variant-level request is not issued and
the whole group's change count is added to the error count.  (5) Concretely,
on 3 entities where entity pB's requests report user errors, the report has
successCount 2, errorCount 2, and the audit store still receives the records
of the two successful entities. -/
theorem executor_failure_isolation :
    (∀ (cat : Catalog) (changes : List Change),
      executeChanges cat changes =
        ⟨((groupByProduct changes).map (fun pg => (processGroup cat pg.1 pg.2).succ)).sum,
         ((groupByProduct changes).map (fun pg => (processGroup cat pg.1 pg.2).err)).sum,
         ((groupByProduct changes).map (fun pg => (processGroup cat pg.1 pg.2).errors)).flatten,
         ((groupByProduct changes).map (fun pg => (processGroup cat pg.1 pg.2).hist)).flatten,
         ((groupByProduct changes).map (fun pg => (processGroup cat pg.1 pg.2).issued)).flatten,
         (groupByProduct changes).length⟩) ∧
    (∀ (cat : Catalog) (pid : Str) (g : List Change) (uep uev : List Str),
      cat pid false = .resp uep → cat pid true = .resp uev →
      processGroup cat pid g =
        ⟨(if plOf g ≠ [] ∧ uep = [] then (plOf g).length else 0)
           + (if vlOf g ≠ [] ∧ uev = [] then (vlOf g).length else 0),
         (if plOf g ≠ [] ∧ uep ≠ [] then (plOf g).length else 0)
           + (if vlOf g ≠ [] ∧ uev ≠ [] then (vlOf g).length else 0),
         (if plOf g ≠ [] ∧ uep ≠ [] then [⟨t0Of g, uep⟩] else [])
           ++ (if vlOf g ≠ [] ∧ uev ≠ [] then [⟨t0Of g, uev⟩] else []),
         (if plOf g ≠ [] ∧ uep = [] then (plOf g).map histRecP else [])
           ++ (if vlOf g ≠ [] ∧ uev = [] then (vlOf g).map histRecV else []),
         (if plOf g = [] then [] else [(pid, false)])
           ++ (if vlOf g = [] then [] else [(pid, true)])⟩) ∧
    (∀ (cat : Catalog) (pid : Str) (g : List Change) (msg : Str),
      cat pid false = .resp [] → cat pid true = .thrown msg → vlOf g ≠ [] →
      processGroup cat pid g =
        ⟨(plOf g).length, g.length, [⟨t0Of g, [msg]⟩], (plOf g).map histRecP,
         (if plOf g = [] then [] else [(pid, false)]) ++ [(pid, true)]⟩) ∧
    (∀ (cat : Catalog) (pid : Str) (g : List Change) (msg : Str),
      cat pid false = .thrown msg → plOf g ≠ [] →
      processGroup cat pid g =
        ⟨0, g.length, [⟨t0Of g, [msg]⟩], [], [(pid, false)]⟩) ∧
    (executeChanges catFailB [chA, chB1, chB2, chC] =
      ⟨2, 2, [⟨str "PB", [str "rejected"]⟩, ⟨str "PB", [str "rejected"]⟩],
       [histRecV chA, histRecV chC],
       [(str "pA", true), (str "pB", false), (str "pB", true), (str "pC", true)], 3⟩ ∧
     (executeIntent "pro" 0 (str "E") [chA, chB1, chB2, chC] catFailB).histWrites =
       [histRecV chA, histRecV chC]) := by
  refine ⟨?add, ?resp, ?vthrow, ?pthrow, by decide, by decide⟩
  · intro cat changes
    simp only [executeChanges]
    rw [execFold_components]
    simp
  · intro cat pid g uep uev hp hv
    rw [processGroup_eq, hp]
    simp only [processVariantStep_resp cat pid uev hv]
    by_cases hpl : plOf g = [] <;> by_cases hvl : vlOf g = [] <;>
      by_cases hup : uep = [] <;> by_cases huv : uev = [] <;>
      simp [hpl, hvl, hup, huv]
  · intro cat pid g msg hp hv hvl
    rw [processGroup_eq, hp]
    simp only [processVariantStep_thrown cat pid msg hv]
    by_cases hpl : plOf g = [] <;> simp [hpl, hvl]
  · intro cat pid g msg hp hpl
    rw [processGroup_eq, hp]
    simp [hpl]

/-- Witness for `executor_failure_isolation`: its thrown-variant clause applied
to the concrete throwing catalog and two-change group evaluates to the
expected group result. -/
theorem executor_failure_isolation_witness :
    processGroup catThrowVariant (str "p1") [chTitle, chPrice] =
      ⟨1, 2, [⟨str "P1", [str "network down"]⟩], [histRecP chTitle],
       [(str "p1", false), (str "p1", true)]⟩ := by
  have h := executor_failure_isolation.2.2.1 catThrowVariant (str "p1")
      [chTitle, chPrice] (str "network down") (by decide) (by decide) (by decide)
  exact h.trans (by decide)

/-!
## C3: planner idempotence — write/read interaction lemmas
-/

theorem writeVariantField_id (g : String) (nv : Str) (v : Variant) :
    (writeVariantField g nv v).id = v.id := by
  unfold writeVariantField
  split_ifs <;> rfl

theorem writeVariantField_price_ne (g : String) (nv : Str) (v : Variant)
    (h : g ≠ "price") : (writeVariantField g nv v).price = v.price := by
  unfold writeVariantField
  split_ifs with h1 h2 h3 h4 h5 <;> first | rfl | exact absurd h1 h

theorem writeVariantField_cap_ne (g : String) (nv : Str) (v : Variant)
    (h : g ≠ "compareAtPrice") :
    (writeVariantField g nv v).compareAtPrice = v.compareAtPrice := by
  unfold writeVariantField
  split_ifs with h1 h2 h3 h4 h5 <;> first | rfl | exact absurd h2 h

theorem writeVariantField_sku_ne (g : String) (nv : Str) (v : Variant)
    (h : g ≠ "sku") : (writeVariantField g nv v).sku = v.sku := by
  unfold writeVariantField
  split_ifs with h1 h2 h3 h4 h5 <;> first | rfl | exact absurd h3 h

theorem writeVariantField_barcode_ne (g : String) (nv : Str) (v : Variant)
    (h : g ≠ "barcode") : (writeVariantField g nv v).barcode = v.barcode := by
  unfold writeVariantField
  split_ifs with h1 h2 h3 h4 h5 <;> first | rfl | exact absurd h4 h

theorem writeVariantField_weight_ne (g : String) (nv : Str) (v : Variant)
    (h : g ≠ "weight") : (writeVariantField g nv v).weight = v.weight := by
  unfold writeVariantField
  split_ifs with h1 h2 h3 h4 h5 <;> first | rfl | exact absurd h5 h

theorem accessorI_write_ne (f g : String) (nv : Str) (v : Variant) (h : g ≠ f) :
    accessorI f (writeVariantField g nv v) = accessorI f v := by
  unfold accessorI
  split_ifs with h1 h2 h3 h4 h5
  · rw [writeVariantField_price_ne g nv v (fun hg => h (hg.trans h1.symm))]
  · rw [writeVariantField_cap_ne g nv v (fun hg => h (hg.trans h2.symm))]
  · rw [writeVariantField_sku_ne g nv v (fun hg => h (hg.trans h3.symm))]
  · rw [writeVariantField_barcode_ne g nv v (fun hg => h (hg.trans h4.symm))]
  · rw [writeVariantField_weight_ne g nv v (fun hg => h (hg.trans h5.symm))]
  · rfl

theorem accessorI_write_eq (f : String) (nv : Str) (v : Variant) :
    accessorI f (writeVariantField f nv v) = writtenVRead f nv := by
  unfold accessorI writtenVRead writeVariantField
  split_ifs <;> rfl

theorem writeProductField_id (g : String) (nv : Str) (p : Product) :
    (writeProductField g nv p).id = p.id := by
  unfold writeProductField
  split_ifs <;> rfl

theorem writeProductField_variants (g : String) (nv : Str) (p : Product) :
    (writeProductField g nv p).variants = p.variants := by
  unfold writeProductField
  split_ifs <;> rfl

theorem writeProductField_title_ne (g : String) (nv : Str) (p : Product)
    (h : g ≠ "title") : (writeProductField g nv p).title = p.title := by
  unfold writeProductField
  split_ifs with h1 h2 h3 h4 h5 h6 <;> first | rfl | exact absurd h1 h

theorem writeProductField_vendor_ne (g : String) (nv : Str) (p : Product)
    (h : g ≠ "vendor") : (writeProductField g nv p).vendor = p.vendor := by
  unfold writeProductField
  split_ifs with h1 h2 h3 h4 h5 h6 <;> first | rfl | exact absurd h2 h

theorem writeProductField_productType_ne (g : String) (nv : Str) (p : Product)
    (h : g ≠ "productType") :
    (writeProductField g nv p).productType = p.productType := by
  unfold writeProductField
  split_ifs with h1 h2 h3 h4 h5 h6 <;> first | rfl | exact absurd h3 h

theorem writeProductField_status_ne (g : String) (nv : Str) (p : Product)
    (h : g ≠ "status") : (writeProductField g nv p).status = p.status := by
  unfold writeProductField
  split_ifs with h1 h2 h3 h4 h5 h6 <;> first | rfl | exact absurd h4 h

theorem writeProductField_ts_ne (g : String) (nv : Str) (p : Product)
    (h : g ≠ "templateSuffix") :
    (writeProductField g nv p).templateSuffix = p.templateSuffix := by
  unfold writeProductField
  split_ifs with h1 h2 h3 h4 h5 h6 <;> first | rfl | exact absurd h6 h

theorem productProp_write_ne (f g : String) (nv : Str) (p : Product) (h : g ≠ f) :
    productProp (writeProductField g nv p) f = productProp p f := by
  unfold productProp
  split_ifs with h1 h2 h3 h4 h5 h6
  · rw [writeProductField_title_ne g nv p (fun hg => h (hg.trans h1.symm))]
  · rw [writeProductField_vendor_ne g nv p (fun hg => h (hg.trans h2.symm))]
  · rw [writeProductField_productType_ne g nv p (fun hg => h (hg.trans h3.symm))]
  · rw [writeProductField_status_ne g nv p (fun hg => h (hg.trans h4.symm))]
  · rw [writeProductField_ts_ne g nv p (fun hg => h (hg.trans h5.symm))]
  · rw [writeProductField_id g nv p]
  · rfl

theorem productProp_write_self (f : String) (nv : Str) (p : Product) :
    productProp (writeProductField f nv p) f = productProp p f ∨
    productProp (writeProductField f nv p) f = nv := by
  unfold productProp writeProductField
  split_ifs <;> first
    | exact Or.inl rfl
    | exact Or.inr rfl
    | exact Or.inr (optOr_some_nil nv)
    | simp_all

theorem variantStep_id (pid : Str) (c : Change) (v : Variant) :
    (variantStep pid c v).id = v.id := by
  cases hv : c.variantId with
  | none => simp [variantStep, hv, ite_self]
  | some vid =>
    by_cases h1 : c.productId = pid
    · by_cases h2 : v.id = vid
      · simp [variantStep, hv, h1, h2, writeVariantField_id]
      · simp [variantStep, hv, h1, h2]
    · simp [variantStep, hv, h1]

theorem applyChange_id (p : Product) (c : Change) : (applyChange p c).id = p.id := by
  unfold applyChange
  split_ifs with h1
  · cases c.variantId with
    | none => exact writeProductField_id c.field c.newValue p
    | some vid => rfl
  · rfl

theorem applyChange_variants (p : Product) (c : Change) :
    (applyChange p c).variants = p.variants.map (variantStep p.id c) := by
  unfold applyChange variantStep
  split_ifs with h1
  · cases c.variantId with
    | none =>
      rw [writeProductField_variants]
      exact (List.map_id p.variants).symm
    | some vid => rfl
  · exact (List.map_id p.variants).symm

theorem foldl_applyChange_id :
    ∀ (C : List Change) (p : Product), (C.foldl applyChange p).id = p.id := by
  intro C
  induction C with
  | nil => intro p; rfl
  | cons c C ih =>
    intro p
    rw [List.foldl_cons, ih, applyChange_id]

theorem foldl_applyChange_variants :
    ∀ (C : List Change) (p : Product),
      (C.foldl applyChange p).variants = p.variants.map (applySteps p.id C) := by
  intro C
  induction C with
  | nil =>
    intro p
    exact (List.map_id p.variants).symm
  | cons c C ih =>
    intro p
    rw [List.foldl_cons, ih, applyChange_id, applyChange_variants, List.map_map]
    rfl

theorem variantStep_accessor (pid : Str) (f : String) (NV : Str) (c : Change)
    (v : Variant) (hc : c.field = f → c.newValue = NV) :
    accessorI f (variantStep pid c v) = accessorI f v ∨
    accessorI f (variantStep pid c v) = writtenVRead f NV := by
  cases hv : c.variantId with
  | none => left; simp [variantStep, hv, ite_self]
  | some vid =>
    by_cases h1 : c.productId = pid
    · by_cases h2 : v.id = vid
      · by_cases h3 : c.field = f
        · right
          simp only [variantStep, hv, h1, h2, if_pos]
          simp only [← h3, ← hc h3]
          exact accessorI_write_eq c.field c.newValue v
        · left
          simp only [variantStep, hv, h1, h2, if_pos]
          exact accessorI_write_ne f c.field c.newValue v h3
      · left; simp [variantStep, hv, h1, h2]
    · left; simp [variantStep, hv, h1]

theorem applySteps_accessor_dichotomy (pid : Str) (f : String) (NV : Str) :
    ∀ (C : List Change) (v : Variant), (∀ c ∈ C, c.field = f → c.newValue = NV) →
      accessorI f (applySteps pid C v) = accessorI f v ∨
      accessorI f (applySteps pid C v) = writtenVRead f NV := by
  intro C
  induction C with
  | nil => intro v _; left; rfl
  | cons c C ih =>
    intro v hC
    have hstep := variantStep_accessor pid f NV c v (hC c (List.mem_cons_self c C))
    have hrest := ih (variantStep pid c v)
      (fun c' hc' => hC c' (List.mem_cons_of_mem c hc'))
    show accessorI f (applySteps pid C (variantStep pid c v)) = accessorI f v ∨
      accessorI f (applySteps pid C (variantStep pid c v)) = writtenVRead f NV
    rcases hrest with h | h
    · rcases hstep with h' | h'
      · left; rw [h, h']
      · right; rw [h, h']
    · right; exact h

theorem applySteps_accessor_written (pid : Str) (f : String) (NV : Str) :
    ∀ (C : List Change) (v : Variant), (∀ c ∈ C, c.field = f → c.newValue = NV) →
      accessorI f v = writtenVRead f NV →
      accessorI f (applySteps pid C v) = writtenVRead f NV := by
  intro C
  induction C with
  | nil => intro v _ hw; exact hw
  | cons c C ih =>
    intro v hC hw
    show accessorI f (applySteps pid C (variantStep pid c v)) = writtenVRead f NV
    refine ih (variantStep pid c v) (fun c' hc' => hC c' (List.mem_cons_of_mem c hc')) ?_
    rcases variantStep_accessor pid f NV c v (hC c (List.mem_cons_self c C)) with h | h
    · rw [h, hw]
    · exact h

theorem applySteps_accessor_hit (pid : Str) (f : String) (NV : Str) :
    ∀ (C : List Change) (v : Variant), (∀ c ∈ C, c.field = f → c.newValue = NV) →
      (∃ c ∈ C, c.productId = pid ∧ c.variantId = some v.id ∧ c.field = f) →
      accessorI f (applySteps pid C v) = writtenVRead f NV := by
  intro C
  induction C with
  | nil => intro v _ hex; exact absurd hex.choose_spec.1 (List.not_mem_nil _)
  | cons c C ih =>
    intro v hC hex
    show accessorI f (applySteps pid C (variantStep pid c v)) = writtenVRead f NV
    obtain ⟨c₀, hc₀, hp₀, hv₀, hf₀⟩ := hex
    rcases List.mem_cons.mp hc₀ with rfl | hmem
    · -- the head change writes field f on this very variant
      refine applySteps_accessor_written pid f NV C (variantStep pid c₀ v)
        (fun c' hc' => hC c' (List.mem_cons_of_mem c₀ hc')) ?_
      have hid : v.id = v.id := rfl
      simp only [variantStep, hv₀, hp₀, if_pos, hid, if_true]
      rw [← hf₀, ← hC c₀ (List.mem_cons_self c₀ C) hf₀]
      exact accessorI_write_eq c₀.field c₀.newValue v
    · refine ih (variantStep pid c v)
        (fun c' hc' => hC c' (List.mem_cons_of_mem c hc'))
        ⟨c₀, hmem, hp₀, ?_, hf₀⟩
      rw [variantStep_id, hv₀]

theorem applyChange_productProp (f : String) (NV : Str) (c : Change) (p : Product)
    (hc : c.field = f → c.newValue = NV) :
    productProp (applyChange p c) f = productProp p f ∨
    productProp (applyChange p c) f = NV := by
  cases hv : c.variantId with
  | some vid =>
    by_cases h1 : c.productId = p.id
    · left
      simp only [applyChange, hv, h1, if_pos]
      rfl
    · left
      simp [applyChange, h1]
  | none =>
    by_cases h1 : c.productId = p.id
    · simp only [applyChange, hv, h1, if_pos]
      by_cases h3 : c.field = f
      · rw [← hc h3, ← h3]
        exact productProp_write_self c.field c.newValue p
      · left
        exact productProp_write_ne f c.field c.newValue p h3
    · left
      simp [applyChange, h1]

theorem foldl_productProp_dichotomy (f : String) (NV : Str) :
    ∀ (C : List Change) (p : Product), (∀ c ∈ C, c.field = f → c.newValue = NV) →
      productProp (C.foldl applyChange p) f = productProp p f ∨
      productProp (C.foldl applyChange p) f = NV := by
  intro C
  induction C with
  | nil => intro p _; left; rfl
  | cons c C ih =>
    intro p hC
    have hstep := applyChange_productProp f NV c p (hC c (List.mem_cons_self c C))
    have hrest := ih (applyChange p c) (fun c' hc' => hC c' (List.mem_cons_of_mem c hc'))
    rw [List.foldl_cons]
    rcases hrest with h | h
    · rcases hstep with h' | h'
      · left; rw [h, h']
      · right; rw [h, h']
    · right; exact h

theorem foldl_productProp_written (f : String) (NV : Str) :
    ∀ (C : List Change) (p : Product), (∀ c ∈ C, c.field = f → c.newValue = NV) →
      productProp p f = NV →
      productProp (C.foldl applyChange p) f = NV := by
  intro C
  induction C with
  | nil => intro p _ hw; exact hw
  | cons c C ih =>
    intro p hC hw
    rw [List.foldl_cons]
    refine ih (applyChange p c) (fun c' hc' => hC c' (List.mem_cons_of_mem c hc')) ?_
    rcases applyChange_productProp f NV c p (hC c (List.mem_cons_self c C)) with h | h
    · rw [h, hw]
    · exact h

theorem foldl_productProp_hit (f : String) (NV : Str)
    (hWeq : ∀ (nv : Str) (q : Product), productProp (writeProductField f nv q) f = nv) :
    ∀ (C : List Change) (p : Product), (∀ c ∈ C, c.field = f → c.newValue = NV) →
      (∃ c ∈ C, c.productId = p.id ∧ c.variantId = none ∧ c.field = f) →
      productProp (C.foldl applyChange p) f = NV := by
  intro C
  induction C with
  | nil => intro p _ hex; exact absurd hex.choose_spec.1 (List.not_mem_nil _)
  | cons c C ih =>
    intro p hC hex
    rw [List.foldl_cons]
    obtain ⟨c₀, hc₀, hp₀, hv₀, hf₀⟩ := hex
    rcases List.mem_cons.mp hc₀ with rfl | hmem
    · refine foldl_productProp_written f NV C (applyChange p c₀)
        (fun c' hc' => hC c' (List.mem_cons_of_mem c₀ hc')) ?_
      simp only [applyChange, hv₀, hp₀, if_pos]
      rw [hf₀, hWeq c₀.newValue p]
      exact hC c₀ (List.mem_cons_self c₀ C) hf₀
    · refine ih (applyChange p c)
        (fun c' hc' => hC c' (List.mem_cons_of_mem c hc'))
        ⟨c₀, hmem, ?_, hv₀, hf₀⟩
      rw [applyChange_id, hp₀]

theorem calcValueI_numeric_nan (m : ModSpec) (fd : FieldDef)
    (hg : getFieldDefI m.field = some fd) (hcat : fd.category = "numeric")
    (hv : parseFloat m.value = none) (cur : Str) :
    calcValueI (some cur) m = none := by
  unfold calcValueI
  rw [hg]
  simp [hcat, hv]

theorem calcValueI_exact_price (m : ModSpec) (fd : FieldDef) (v0 : Dec)
    (hg : getFieldDefI m.field = some fd) (hcat : fd.category = "numeric")
    (ht : m.type = "exact") (hv : parseFloat m.value = some v0)
    (hpf : priceField m.field) (cur : Str) :
    calcValueI (some cur) m =
      some (formatFixed2 (applyRounding m.rounding (some v0))) := by
  unfold calcValueI
  rw [hg]
  simp [hcat, hv, ht, jsArith, hpf]

theorem calcValueI_exact_plain (m : ModSpec) (fd : FieldDef) (v0 : Dec)
    (hg : getFieldDefI m.field = some fd) (hcat : fd.category = "numeric")
    (ht : m.type = "exact") (hv : parseFloat m.value = some v0)
    (hpf : ¬ priceField m.field) (cur : Str) :
    calcValueI (some cur) m = some (formatPlain (some v0)) := by
  unfold calcValueI
  rw [hg]
  simp [hcat, hv, ht, jsArith, hpf]

theorem calcValueI_set (m : ModSpec) (fd : FieldDef)
    (hg : getFieldDefI m.field = some fd)
    (hcat : fd.category = "text" ∨ fd.category = "select") (ht : m.type = "set")
    (cur : Str) :
    calcValueI (some cur) m = some m.value := by
  unfold calcValueI
  rw [hg]
  rcases hcat with hc | hc <;> simp [hc, ht]

theorem calcValueI_const (m : ModSpec) (h : absoluteMod m) (cur cur' : Str) :
    calcValueI (some cur) m = calcValueI (some cur') m := by
  unfold absoluteMod at h
  cases hg : getFieldDefI m.field with
  | none =>
    unfold calcValueI
    rw [hg]
  | some fd =>
    rw [hg] at h
    rcases h with ⟨hcat, ht⟩ | ⟨hcat, ht⟩
    · cases hv : parseFloat m.value with
      | none =>
        rw [calcValueI_numeric_nan m fd hg hcat hv cur,
            calcValueI_numeric_nan m fd hg hcat hv cur']
      | some v0 =>
        by_cases hpf : priceField m.field
        · rw [calcValueI_exact_price m fd v0 hg hcat ht hv hpf cur,
              calcValueI_exact_price m fd v0 hg hcat ht hv hpf cur']
        · rw [calcValueI_exact_plain m fd v0 hg hcat ht hv hpf cur,
              calcValueI_exact_plain m fd v0 hg hcat ht hv hpf cur']
    · rw [calcValueI_set m fd hg hcat ht cur, calcValueI_set m fd hg hcat ht cur']

theorem planProductChange_none_ext (p p' : Product) (m : ModSpec)
    (h : (if m.field = "tags" then joinS (str ", ") p'.tags else productProp p' m.field) =
         (if m.field = "tags" then joinS (str ", ") p.tags else productProp p m.field))
    (hn : planProductChange p m = none) :
    planProductChange p' m = none := by
  unfold planProductChange at hn ⊢
  rw [h]
  cases hcv : calcValueI
      (some (if m.field = "tags" then joinS (str ", ") p.tags else productProp p m.field)) m with
  | none => rw [Option.none_bind]
  | some nv =>
    rw [hcv, Option.some_bind] at hn
    rw [Option.some_bind]
    by_cases hc : nv = (if m.field = "tags" then joinS (str ", ") p.tags else productProp p m.field)
    · rw [if_pos hc]
    · rw [if_neg hc] at hn
      exact Option.noConfusion hn

theorem planVariantChange_none_ext (p p' : Product) (fd : FieldDef) (m : ModSpec)
    (v v' : Variant) (hacc : accessorI m.field v' = accessorI m.field v)
    (hn : planVariantChange p fd m v = none) :
    planVariantChange p' fd m v' = none := by
  unfold planVariantChange at hn ⊢
  rw [hacc]
  by_cases hsk : jsFalsy (accessorI m.field v) = true ∧ m.type ≠ "exact" ∧
      m.type ≠ "set" ∧ fd.category = "numeric"
  · rw [if_pos hsk]
  · rw [if_neg hsk] at hn ⊢
    cases hcv : calcValueI
        (some (optOr (accessorI m.field v) (if fd.category = "numeric" then str "0" else []))) m with
    | none => rw [Option.none_bind]
    | some nv =>
      rw [hcv, Option.some_bind] at hn
      rw [Option.some_bind]
      by_cases hcat : fd.category = "numeric"
      · rw [if_pos hcat] at hn ⊢
        by_cases hsup : nEq (parseFloat (optOr (accessorI m.field v) (str "0")))
            (parseFloat nv) = true
        · rw [if_pos hsup]
        · rw [if_neg hsup] at hn
          exact Option.noConfusion hn
      · rw [if_neg hcat] at hn ⊢
        by_cases hsup : optOr (accessorI m.field v) [] = nv
        · rw [if_pos hsup]
        · rw [if_neg hsup] at hn
          exact Option.noConfusion hn

theorem planVariantChange_none_of_calc (p : Product) (fd : FieldDef) (m : ModSpec)
    (v : Variant) (h : ∀ cur, calcValueI (some cur) m = none) :
    planVariantChange p fd m v = none := by
  unfold planVariantChange
  by_cases hsk : jsFalsy (accessorI m.field v) = true ∧ m.type ≠ "exact" ∧
      m.type ≠ "set" ∧ fd.category = "numeric"
  · rw [if_pos hsk]
  · rw [if_neg hsk, h _, Option.none_bind]

theorem planProductChange_parts (p : Product) (m : ModSpec) (c : Change)
    (h : planProductChange p m = some c) :
    c.field = m.field ∧ c.variantId = none ∧ c.productId = p.id ∧
    calcValueI (some (if m.field = "tags" then joinS (str ", ") p.tags
      else productProp p m.field)) m = some c.newValue := by
  unfold planProductChange at h
  rcases heq : calcValueI
      (some (if m.field = "tags" then joinS (str ", ") p.tags else productProp p m.field)) m
    with _ | nv
  · rw [heq, Option.none_bind] at h
    exact Option.noConfusion h
  · rw [heq, Option.some_bind] at h
    by_cases hnv : nv = (if m.field = "tags" then joinS (str ", ") p.tags
        else productProp p m.field)
    · rw [if_pos hnv] at h
      exact Option.noConfusion h
    · rw [if_neg hnv] at h
      cases Option.some.inj h
      exact ⟨rfl, rfl, rfl, rfl⟩

theorem planVariantChange_parts (p : Product) (fd : FieldDef) (m : ModSpec) (v : Variant)
    (c : Change) (h : planVariantChange p fd m v = some c) :
    c.field = m.field ∧ c.variantId = some v.id ∧ c.productId = p.id ∧
    calcValueI (some (optOr (accessorI m.field v)
      (if fd.category = "numeric" then str "0" else []))) m = some c.newValue := by
  unfold planVariantChange at h
  by_cases hskip : jsFalsy (accessorI m.field v) = true ∧ m.type ≠ "exact" ∧
      m.type ≠ "set" ∧ fd.category = "numeric"
  · rw [if_pos hskip] at h
    exact Option.noConfusion h
  · rw [if_neg hskip] at h
    rcases heq : calcValueI
        (some (optOr (accessorI m.field v) (if fd.category = "numeric" then str "0" else []))) m
      with _ | nv
    · rw [heq, Option.none_bind] at h
      exact Option.noConfusion h
    · rw [heq, Option.some_bind] at h
      by_cases hcat : fd.category = "numeric"
      · rw [if_pos hcat] at h
        by_cases hsup : nEq (parseFloat (optOr (accessorI m.field v) (str "0")))
            (parseFloat nv) = true
        · rw [if_pos hsup] at h
          exact Option.noConfusion h
        · rw [if_neg hsup] at h
          cases Option.some.inj h
          exact ⟨rfl, rfl, rfl, rfl⟩
      · rw [if_neg hcat] at h
        by_cases hsup : optOr (accessorI m.field v) [] = nv
        · rw [if_pos hsup] at h
          exact Option.noConfusion h
        · rw [if_neg hsup] at h
          cases Option.some.inj h
          exact ⟨rfl, rfl, rfl, rfl⟩

theorem pairwise_field_eq (M : List ModSpec)
    (hpw : M.Pairwise (fun a b => a.field ≠ b.field)) (m m' : ModSpec)
    (hm : m ∈ M) (hm' : m' ∈ M) (hf : m.field = m'.field) : m = m' := by
  by_contra hne
  have hsym : Symmetric (fun (a b : ModSpec) => a.field ≠ b.field) := by
    intro a b h he
    exact h he.symm
  exact hpw.forall hsym hm hm' hne hf

theorem planned_value (E : List Product) (M : List ModSpec)
    (hab : ∀ m ∈ M, absoluteMod m) (c : Change) (hc : c ∈ planChanges E M) :
    ∃ m ∈ M, c.field = m.field ∧ some c.newValue = calcValueI (some []) m := by
  unfold planChanges at hc
  obtain ⟨p, hp, hc2⟩ := List.mem_flatMap.mp hc
  obtain ⟨m, hm, hc3⟩ := List.mem_flatMap.mp hc2
  refine ⟨m, hm, ?_⟩
  cases hg : getFieldDefI m.field with
  | none =>
    simp only [planFor, hg] at hc3
    exact absurd hc3 (List.not_mem_nil c)
  | some fd =>
    simp only [planFor, hg] at hc3
    by_cases hl : fd.level = "product"
    · rw [if_pos hl] at hc3
      have hsome : planProductChange p m = some c := by
        cases hpp : planProductChange p m with
        | none =>
          rw [hpp] at hc3
          exact absurd hc3 (List.not_mem_nil c)
        | some c' =>
          rw [hpp] at hc3
          cases List.mem_singleton.mp hc3
          rfl
      obtain ⟨h1, _, _, hcv⟩ := planProductChange_parts p m c hsome
      exact ⟨h1, hcv.symm.trans (calcValueI_const m (hab m hm) _ [])⟩
    · rw [if_neg hl] at hc3
      obtain ⟨v, hv, hpv⟩ := List.mem_filterMap.mp hc3
      obtain ⟨h1, _, _, hcv⟩ := planVariantChange_parts p fd m v c hpv
      exact ⟨h1, hcv.symm.trans (calcValueI_const m (hab m hm) _ [])⟩

/-!
## C3: digit-string and parse round-trip lemmas
-/

theorem digitsVal_foldl (l : Str) : ∀ (a : Nat),
    List.foldl (fun a c => a * 10 + (c.toNat - '0'.toNat)) a l =
      a * 10 ^ l.length + digitsVal l := by
  induction l with
  | nil => intro a; simp [digitsVal]
  | cons c t ih =>
    intro a
    have h2 : digitsVal (c :: t) = (c.toNat - '0'.toNat) * 10 ^ t.length + digitsVal t := by
      show List.foldl _ (0 * 10 + (c.toNat - '0'.toNat)) t = _
      rw [ih]
      simp
    rw [List.foldl_cons, ih, h2, List.length_cons]
    ring

theorem digitsVal_append (xs ys : Str) :
    digitsVal (xs ++ ys) = digitsVal xs * 10 ^ ys.length + digitsVal ys := by
  show List.foldl _ 0 (xs ++ ys) = _
  rw [List.foldl_append]
  exact digitsVal_foldl ys (digitsVal xs)

theorem digitsVal_replicate (k : Nat) : digitsVal (List.replicate k '0') = 0 := by
  induction k with
  | zero => rfl
  | succ k ih =>
    show digitsVal ('0' :: List.replicate k '0') = 0
    show List.foldl _ (0 * 10 + ('0'.toNat - '0'.toNat)) _ = 0
    exact ih

theorem digit10_props : ∀ c ∈ str "0123456789",
    c.isDigit = true ∧ isWS c = false ∧ c ≠ '-' ∧ c ≠ '+' ∧ c ≠ '.' := by
  decide

theorem natDigits_spec : ∀ n : Nat,
    natDigits n ≠ [] ∧ ∀ c ∈ natDigits n, c ∈ str "0123456789" := by
  intro n
  induction n using Nat.strong_induction_on with
  | _ n ih =>
    rw [natDigits_eq n]
    by_cases h10 : n < 10
    · rw [if_pos h10]
      refine ⟨by simp, ?_⟩
      intro c hc
      rw [List.mem_singleton] at hc
      subst hc
      interval_cases n <;> decide
    · rw [if_neg h10]
      have hd : n / 10 < n := Nat.div_lt_self (by omega) (by omega)
      obtain ⟨hne, hmem⟩ := ih (n / 10) hd
      constructor
      · intro hcontra
        exact hne (List.append_eq_nil.mp hcontra).1
      · intro c hc
        rcases List.mem_append.mp hc with h | h
        · exact hmem c h
        · rw [List.mem_singleton] at h
          subst h
          obtain ⟨r, hr, hreq⟩ : ∃ r, r < 10 ∧ n % 10 = r :=
            ⟨n % 10, Nat.mod_lt n (by omega), rfl⟩
          rw [hreq]
          interval_cases r <;> decide

theorem digitsVal_natDigits : ∀ n : Nat, digitsVal (natDigits n) = n := by
  intro n
  induction n using Nat.strong_induction_on with
  | _ n ih =>
    rw [natDigits_eq n]
    by_cases h10 : n < 10
    · rw [if_pos h10]
      interval_cases n <;> decide
    · rw [if_neg h10]
      rw [digitsVal_append]
      have hd : n / 10 < n := Nat.div_lt_self (by omega) (by omega)
      rw [ih _ hd]
      obtain ⟨r, hr, hreq⟩ : ∃ r, r < 10 ∧ n % 10 = r :=
        ⟨n % 10, Nat.mod_lt n (by omega), rfl⟩
      rw [hreq]
      have hv : digitsVal [Char.ofNat ('0'.toNat + r)] = r := by
        interval_cases r <;> decide
      rw [hv]
      simp only [List.length_singleton, pow_one]
      omega

theorem natDigits_length_le : ∀ (n t : Nat), n < 10 ^ t → 1 ≤ t →
    (natDigits n).length ≤ t := by
  intro n
  induction n using Nat.strong_induction_on with
  | _ n ih =>
    intro t hlt ht1
    rw [natDigits_eq n]
    by_cases h10 : n < 10
    · rw [if_pos h10]
      simpa using ht1
    · rw [if_neg h10]
      rw [List.length_append]
      have hd : n / 10 < n := Nat.div_lt_self (by omega) (by omega)
      have ht2 : 2 ≤ t := by
        by_contra hc
        have ht1' : t = 1 := by omega
        subst ht1'
        simp at hlt
        omega
      have hlt' : n / 10 < 10 ^ (t - 1) := by
        have h1 : 10 ^ t = 10 ^ (t - 1) * 10 := by
          conv_lhs => rw [show t = (t - 1) + 1 by omega]
          rw [pow_succ]
        exact (Nat.div_lt_iff_lt_mul (by omega)).mpr (by omega)
      have := ih (n / 10) hd (t - 1) hlt' (by omega)
      simp only [List.length_singleton]
      omega

theorem takeWhile_append_sep (p : Char → Bool) :
    ∀ (xs : Str) (y : Char) (ys : Str), (∀ c ∈ xs, p c = true) → p y = false →
      (xs ++ y :: ys).takeWhile p = xs ∧ (xs ++ y :: ys).dropWhile p = y :: ys := by
  intro xs
  induction xs with
  | nil =>
    intro y ys _ hy
    constructor
    · simp [List.takeWhile_cons, hy]
    · simp [List.dropWhile_cons, hy]
  | cons a t ih =>
    intro y ys hall hy
    have ha : p a = true := hall a (List.mem_cons_self a t)
    obtain ⟨h1, h2⟩ := ih y ys (fun c hc => hall c (List.mem_cons_of_mem a hc)) hy
    constructor
    · simp [List.takeWhile_cons, ha, h1]
    · simp [List.dropWhile_cons, ha, h2]

theorem takeWhile_all (p : Char → Bool) :
    ∀ (l : Str), (∀ c ∈ l, p c = true) →
      l.takeWhile p = l ∧ l.dropWhile p = [] := by
  intro l
  induction l with
  | nil => intro _; exact ⟨rfl, rfl⟩
  | cons a t ih =>
    intro hall
    have ha : p a = true := hall a (List.mem_cons_self a t)
    obtain ⟨h1, h2⟩ := ih (fun c hc => hall c (List.mem_cons_of_mem a hc))
    constructor
    · simp [List.takeWhile_cons, ha, h1]
    · simp [List.dropWhile_cons, ha, h2]

theorem stripTens_spec : ∀ (e : Nat) (m : Int),
    (stripTens m e).1 * 10 ^ e = m * 10 ^ (stripTens m e).2 ∧
    (stripTens m e).2 ≤ e ∧ (0 ≤ m → 0 ≤ (stripTens m e).1) := by
  intro e
  induction e with
  | zero => intro m; exact ⟨rfl, le_rfl, fun h => h⟩
  | succ e ih =>
    intro m
    by_cases h0 : m % 10 = 0
    · have hrw : stripTens m (e + 1) = stripTens (m / 10) e := by
        show (if m % 10 = 0 then stripTens (m / 10) e else (m, e + 1)) = _
        rw [if_pos h0]
      rw [hrw]
      obtain ⟨h1, h2, h3⟩ := ih (m / 10)
      refine ⟨?_, by omega, ?_⟩
      · have hm : m / 10 * 10 = m := Int.ediv_mul_cancel (Int.dvd_of_emod_eq_zero h0)
        calc (stripTens (m / 10) e).1 * 10 ^ (e + 1)
            = (stripTens (m / 10) e).1 * 10 ^ e * 10 := by ring
          _ = m / 10 * 10 ^ (stripTens (m / 10) e).2 * 10 := by rw [h1]
          _ = m / 10 * 10 * 10 ^ (stripTens (m / 10) e).2 := by ring
          _ = m * 10 ^ (stripTens (m / 10) e).2 := by rw [hm]
      · intro hm0
        exact h3 (Int.ediv_nonneg hm0 (by omega))
    · have hrw : stripTens m (e + 1) = (m, e + 1) := by
        show (if m % 10 = 0 then stripTens (m / 10) e else (m, e + 1)) = _
        rw [if_neg h0]
      rw [hrw]
      exact ⟨rfl, le_rfl, fun h => h⟩

theorem parseExp_nil : parseExp [] = 0 := by
  unfold parseExp
  simp

theorem parseFloat_digits (ds : Str) (hne : ds ≠ [])
    (hd : ∀ c ∈ ds, c ∈ str "0123456789") :
    parseFloat ds = some ⟨(digitsVal ds : Int), 0⟩ := by
  obtain ⟨c, t, rfl⟩ : ∃ c t, ds = c :: t := by
    cases ds with
    | nil => exact absurd rfl hne
    | cons c t => exact ⟨c, t, rfl⟩
  obtain ⟨hdig, hws, hmin, hplus, hdot⟩ := digit10_props c (hd c (List.mem_cons_self c t))
  have hall : ∀ x ∈ c :: t, Char.isDigit x = true :=
    fun x hx => (digit10_props x (hd x hx)).1
  obtain ⟨htake, hdrop⟩ := takeWhile_all Char.isDigit (c :: t) hall
  have hl : (c :: t).dropWhile isWS = c :: t := by
    rw [List.dropWhile_cons]
    simp [hws]
  simp only [parseFloat, hl, digitSpan, List.head?_cons, Option.some.injEq,
    if_neg (show ¬(c = '-' ∨ c = '+') by simp [hmin, hplus]), if_neg hmin]
  rw [htake, hdrop]
  simp only [List.head?_nil]
  have hdotn : (none : Option Char) ≠ some '.' := by simp
  simp only [if_neg hdotn]
  simp [parseExp_nil, applyExp]

theorem parseFloat_int_frac (is fs : Str) (hine : is ≠ [])
    (hid : ∀ c ∈ is, c ∈ str "0123456789")
    (hfd : ∀ c ∈ fs, c ∈ str "0123456789") :
    parseFloat (is ++ '.' :: fs) = some ⟨(digitsVal (is ++ fs) : Int), fs.length⟩ := by
  obtain ⟨c, t, rfl⟩ : ∃ c t, is = c :: t := by
    cases is with
    | nil => exact absurd rfl hine
    | cons c t => exact ⟨c, t, rfl⟩
  obtain ⟨hdig, hws, hmin, hplus, hdot⟩ := digit10_props c (hid c (List.mem_cons_self c t))
  have hall : ∀ x ∈ c :: t, Char.isDigit x = true :=
    fun x hx => (digit10_props x (hid x hx)).1
  have hallf : ∀ x ∈ fs, Char.isDigit x = true :=
    fun x hx => (digit10_props x (hfd x hx)).1
  obtain ⟨htake, hdrop⟩ :=
    takeWhile_append_sep Char.isDigit (c :: t) '.' fs hall (by decide)
  obtain ⟨htakef, hdropf⟩ := takeWhile_all Char.isDigit fs hallf
  have hl : ((c :: t) ++ '.' :: fs).dropWhile isWS = (c :: t) ++ '.' :: fs := by
    rw [List.cons_append, List.dropWhile_cons]
    simp [hws]
  have hh : ((c :: t) ++ '.' :: fs).head? = some c := rfl
  simp only [parseFloat, hl, digitSpan, hh, Option.some.injEq,
    if_neg (show ¬(c = '-' ∨ c = '+') by simp [hmin, hplus]), if_neg hmin]
  rw [htake, hdrop]
  simp only [List.head?_cons, List.tail_cons, Option.some.injEq, if_pos rfl]
  rw [htakef, hdropf]
  have hr2 : List.dropWhile Char.isDigit fs = [] := hdropf
  simp [parseExp_nil, applyExp, digitsVal_append, hine]

theorem decStr_parse (d : Dec) (h : 0 ≤ d.m) :
    parseFloat (decStr d) =
      some ⟨(stripTens d.m d.e).1, (stripTens d.m d.e).2⟩ := by
  obtain ⟨hval, hle, hpos⟩ := stripTens_spec d.e d.m
  by_cases h2 : (stripTens d.m d.e).2 = 0
  · simp only [decStr, h2, if_pos]
    rw [intStr, if_neg (not_lt.mpr (hpos h))]
    rw [parseFloat_digits _ (natDigits_spec _).1 (natDigits_spec _).2]
    simp [digitsVal_natDigits, Int.toNat_of_nonneg (hpos h), h2]
  · simp only [decStr, if_neg h2]
    rw [if_neg (not_lt.mpr (hpos h)), List.nil_append]
    have hb : (stripTens d.m d.e).1.natAbs % 10 ^ (stripTens d.m d.e).2 <
        10 ^ (stripTens d.m d.e).2 := Nat.mod_lt _ (Nat.pos_pow_of_pos _ (by omega))
    have hlen : (natDigits ((stripTens d.m d.e).1.natAbs % 10 ^ (stripTens d.m d.e).2)).length ≤
        (stripTens d.m d.e).2 := natDigits_length_le _ _ hb (by omega)
    have hfsd : ∀ x ∈ List.replicate
          ((stripTens d.m d.e).2 -
            (natDigits ((stripTens d.m d.e).1.natAbs % 10 ^ (stripTens d.m d.e).2)).length) '0' ++
          natDigits ((stripTens d.m d.e).1.natAbs % 10 ^ (stripTens d.m d.e).2),
        x ∈ str "0123456789" := by
      intro x hx
      rcases List.mem_append.mp hx with hx | hx
      · rw [List.eq_of_mem_replicate hx]
        decide
      · exact (natDigits_spec _).2 x hx
    rw [parseFloat_int_frac _ _ (natDigits_spec _).1 (natDigits_spec _).2 hfsd]
    have hys : (List.replicate
          ((stripTens d.m d.e).2 -
            (natDigits ((stripTens d.m d.e).1.natAbs % 10 ^ (stripTens d.m d.e).2)).length) '0' ++
          natDigits ((stripTens d.m d.e).1.natAbs % 10 ^ (stripTens d.m d.e).2)).length =
        (stripTens d.m d.e).2 := by
      rw [List.length_append, List.length_replicate]
      omega
    have hdv : digitsVal
        (natDigits ((stripTens d.m d.e).1.natAbs / 10 ^ (stripTens d.m d.e).2) ++
          (List.replicate
            ((stripTens d.m d.e).2 -
              (natDigits ((stripTens d.m d.e).1.natAbs % 10 ^ (stripTens d.m d.e).2)).length) '0' ++
            natDigits ((stripTens d.m d.e).1.natAbs % 10 ^ (stripTens d.m d.e).2))) =
        (stripTens d.m d.e).1.natAbs := by
      rw [digitsVal_append, digitsVal_append, digitsVal_replicate, digitsVal_natDigits,
        digitsVal_natDigits, hys]
      have := Nat.div_add_mod (stripTens d.m d.e).1.natAbs (10 ^ (stripTens d.m d.e).2)
      ring_nf
      ring_nf at this
      omega
    rw [hdv, hys]
    have hcast : (((stripTens d.m d.e).1.natAbs : ℕ) : ℤ) = (stripTens d.m d.e).1 :=
      Int.natAbs_of_nonneg (hpos h)
    rw [hcast]

theorem decStr_ne_nil (d : Dec) : decStr d ≠ [] := by
  by_cases h2 : (stripTens d.m d.e).2 = 0
  · simp only [decStr, h2, if_pos]
    unfold intStr
    split_ifs
    · simp
    · exact (natDigits_spec _).1
  · simp only [decStr, if_neg h2]
    simp

theorem toFixed2_ne_nil (d : Dec) : toFixed2 d ≠ [] := by
  unfold toFixed2
  simp [(natDigits_spec _).1]

theorem pad2_digits (n : Nat) : ∀ c ∈ pad2 n, c ∈ str "0123456789" := by
  unfold pad2
  split_ifs
  · intro c hc
    rcases List.mem_cons.mp hc with rfl | hc
    · decide
    · exact (natDigits_spec _).2 c hc
  · exact (natDigits_spec _).2

theorem parseFloat_toFixed2_some (d : Dec) : ∃ w, parseFloat (toFixed2 d) = some w :=
  ⟨_, parseFloat_int_frac _ _ (natDigits_spec _).1 (natDigits_spec _).2 (pad2_digits _)⟩

theorem nEq_refl_of_some (s : Str) (h : ∃ w, parseFloat s = some w) :
    nEq (parseFloat s) (parseFloat s) = true := by
  obtain ⟨w, hw⟩ := h
  rw [hw]
  simp [nEq, Dec.valEq]

theorem nEq_decStr_parse (s : Str) (w : Dec) (hs : parseFloat s = some w)
    (hw : 0 ≤ w.m) : nEq (parseFloat (decStr w)) (parseFloat s) = true := by
  rw [hs, decStr_parse w hw]
  obtain ⟨hval, _, _⟩ := stripTens_spec w.e w.m
  simp only [nEq, Dec.valEq]
  exact decide_eq_true_eq.mpr hval |>.symm ▸ (by simp [hval])

theorem max0_nonneg (v : Dec) : 0 ≤ v.max0.m := by
  unfold Dec.max0
  split_ifs with h
  · exact le_rfl
  · omega

theorem fixed4Val_nonneg (d : Dec) (h : 0 ≤ d.m) : 0 ≤ (fixed4Val d).m := by
  unfold fixed4Val
  refine Int.fdiv_nonneg ?_ (by positivity)
  have h1 : (0 : Int) ≤ 10 ^ d.e := by positivity
  nlinarith

theorem formatPlain_parse (v0 : Dec) :
    ∃ w, parseFloat (formatPlain (some v0)) = some w ∧ 0 ≤ w.m := by
  show ∃ w, parseFloat (if (v0.max0).m % 10 ^ (v0.max0).e = 0 then decStr v0.max0
    else decStr (fixed4Val v0.max0)) = some w ∧ 0 ≤ w.m
  split_ifs with hc
  · exact ⟨_, decStr_parse _ (max0_nonneg v0),
      (stripTens_spec _ _).2.2 (max0_nonneg v0)⟩
  · exact ⟨_, decStr_parse _ (fixed4Val_nonneg _ (max0_nonneg v0)),
      (stripTens_spec _ _).2.2 (fixed4Val_nonneg _ (max0_nonneg v0))⟩

theorem applyRounding_some (rd : String) (v0 : Dec) :
    ∃ d', applyRounding rd (some v0) = some d' := by
  unfold applyRounding
  split_ifs <;> exact ⟨_, rfl⟩

theorem planVariantChange_none_of_noop_numeric (p : Product) (m : ModSpec) (v : Variant)
    (nv : Str)
    (hcalc : calcValueI (some (optOr (accessorI m.field v) (str "0"))) m = some nv)
    (hnoop : nEq (parseFloat (optOr (accessorI m.field v) (str "0"))) (parseFloat nv) = true) :
    planVariantChange p ⟨"numeric", "variant"⟩ m v = none := by
  unfold planVariantChange
  by_cases hsk : jsFalsy (accessorI m.field v) = true ∧ m.type ≠ "exact" ∧ m.type ≠ "set" ∧
      FieldDef.category ⟨"numeric", "variant"⟩ = "numeric"
  · rw [if_pos hsk]
  · rw [if_neg hsk]
    have hd : (if FieldDef.category ⟨"numeric", "variant"⟩ = "numeric" then str "0"
        else ([] : Str)) = str "0" := rfl
    rw [hd, hcalc, Option.some_bind, if_pos rfl, if_pos hnoop]

theorem planVariantChange_none_of_noop_text (p : Product) (m : ModSpec) (v : Variant)
    (nv : Str)
    (hcalc : calcValueI (some (optOr (accessorI m.field v) [])) m = some nv)
    (hnoop : optOr (accessorI m.field v) [] = nv) :
    planVariantChange p ⟨"text", "variant"⟩ m v = none := by
  unfold planVariantChange
  by_cases hsk : jsFalsy (accessorI m.field v) = true ∧ m.type ≠ "exact" ∧ m.type ≠ "set" ∧
      FieldDef.category ⟨"text", "variant"⟩ = "numeric"
  · rw [if_pos hsk]
  · rw [if_neg hsk]
    have hd : (if FieldDef.category ⟨"text", "variant"⟩ = "numeric" then str "0"
        else ([] : Str)) = ([] : Str) := rfl
    rw [hd, hcalc, Option.some_bind,
      if_neg (by decide : ¬ FieldDef.category ⟨"text", "variant"⟩ = "numeric"),
      if_pos hnoop]

theorem planFor_variant_none_calc (p' : Product) (fd : FieldDef) (m : ModSpec)
    (hg : getFieldDefI m.field = some fd) (hlv : fd.level = "variant")
    (h : ∀ cur, calcValueI (some cur) m = none) :
    planFor p' m = [] := by
  simp only [planFor, hg]
  rw [if_neg (by rw [hlv]; decide)]
  exact List.filterMap_eq_nil_iff.mpr
    (fun v _ => planVariantChange_none_of_calc p' fd m v h)

theorem planFor_variant_idem (E : List Product) (M : List ModSpec)
    (habs : ∀ m' ∈ M, absoluteMod m')
    (hpw : M.Pairwise (fun a b => a.field ≠ b.field))
    (p : Product) (m : ModSpec) (hp : p ∈ E) (hm : m ∈ M)
    (fd : FieldDef) (hg : getFieldDefI m.field = some fd) (hlv : fd.level = "variant")
    (NVstr : Str) (hNVc : calcValueI (some []) m = some NVstr)
    (hwc : ∀ (q : Product) (v' : Variant),
      accessorI m.field v' = writtenVRead m.field NVstr →
      planVariantChange q fd m v' = none) :
    planFor ((planChanges E M).foldl applyChange p) m = [] := by
  have hNV : ∀ c ∈ planChanges E M, c.field = m.field → c.newValue = NVstr := by
    intro c hc hcf
    obtain ⟨m', hm', hfm', hval⟩ := planned_value E M habs c hc
    have heqm : m' = m := pairwise_field_eq M hpw m' m hm' hm (by rw [← hfm', hcf])
    subst heqm
    rw [hNVc] at hval
    exact Option.some.inj hval
  simp only [planFor, hg]
  rw [if_neg (by rw [hlv]; decide)]
  rw [foldl_applyChange_variants, List.filterMap_map]
  refine List.filterMap_eq_nil_iff.mpr ?_
  intro v hv
  show planVariantChange ((planChanges E M).foldl applyChange p) fd m
    (applySteps p.id (planChanges E M) v) = none
  cases horig : planVariantChange p fd m v with
  | some c =>
    have hcC : c ∈ planChanges E M := by
      have h1 : c ∈ planFor p m := by
        simp only [planFor, hg]
        rw [if_neg (by rw [hlv]; decide)]
        exact List.mem_filterMap.mpr ⟨v, hv, horig⟩
      exact List.mem_flatMap.mpr ⟨p, hp, List.mem_flatMap.mpr ⟨m, hm, h1⟩⟩
    obtain ⟨hcf, hcvid, hcpid, _⟩ := planVariantChange_parts p fd m v c horig
    have hhit := applySteps_accessor_hit p.id m.field NVstr (planChanges E M) v
      hNV ⟨c, hcC, hcpid, hcvid, hcf⟩
    exact hwc _ _ hhit
  | none =>
    rcases applySteps_accessor_dichotomy p.id m.field NVstr (planChanges E M) v
      hNV with hacc | hacc
    · exact planVariantChange_none_ext p _ fd m v _ hacc horig
    · exact hwc _ _ hacc

theorem planFor_product_idem (E : List Product) (M : List ModSpec)
    (habs : ∀ m' ∈ M, absoluteMod m')
    (hpw : M.Pairwise (fun a b => a.field ≠ b.field))
    (p : Product) (m : ModSpec) (hp : p ∈ E) (hm : m ∈ M)
    (fd : FieldDef) (hg : getFieldDefI m.field = some fd) (hlv : fd.level = "product")
    (hnotags : m.field ≠ "tags")
    (hWeq : ∀ (nv : Str) (q : Product),
      productProp (writeProductField m.field nv q) m.field = nv)
    (NVstr : Str) (hNVc : calcValueI (some []) m = some NVstr) :
    planFor ((planChanges E M).foldl applyChange p) m = [] := by
  have hNV : ∀ c ∈ planChanges E M, c.field = m.field → c.newValue = NVstr := by
    intro c hc hcf
    obtain ⟨m', hm', hfm', hval⟩ := planned_value E M habs c hc
    have heqm : m' = m := pairwise_field_eq M hpw m' m hm' hm (by rw [← hfm', hcf])
    subst heqm
    rw [hNVc] at hval
    exact Option.some.inj hval
  have hwr : ∀ q', productProp q' m.field = NVstr → planProductChange q' m = none := by
    intro q' hq
    unfold planProductChange
    simp only [if_neg hnotags]
    rw [hq, calcValueI_const m (habs m hm) NVstr [], hNVc, Option.some_bind, if_pos rfl]
  have hres : planProductChange ((planChanges E M).foldl applyChange p) m = none := by
    cases horig : planProductChange p m with
    | some c =>
      have hcC : c ∈ planChanges E M := by
        have h1 : c ∈ planFor p m := by
          simp only [planFor, hg]
          rw [if_pos hlv]
          rw [horig]
          exact List.mem_singleton.mpr rfl
        exact List.mem_flatMap.mpr ⟨p, hp, List.mem_flatMap.mpr ⟨m, hm, h1⟩⟩
      obtain ⟨hcf, hcvid, hcpid, _⟩ := planProductChange_parts p m c horig
      exact hwr _ (foldl_productProp_hit m.field NVstr hWeq (planChanges E M) p hNV
        ⟨c, hcC, hcpid, hcvid, hcf⟩)
    | none =>
      rcases foldl_productProp_dichotomy m.field NVstr (planChanges E M) p hNV with
        hacc | hacc
      · refine planProductChange_none_ext p _ m ?_ horig
        rw [if_neg hnotags, if_neg hnotags, hacc]
      · exact hwr _ hacc
  simp only [planFor, hg]
  rw [if_pos hlv, hres]
  rfl

/-- C3: counterexample — planner idempotence fails without restrictions.
(1) A relative numeric mod (increase price by a fixed 5) keeps producing new
changes after its plan has been applied; (2) a tags `set` mod is re-emitted
forever because the stored tag list is normalized while the computed value is
the raw spec value; (3) two mods on the same field (exact 10 then exact 20)
leave the first mod unconverged after the second one's value is applied. -/
theorem planner_not_idempotent :
    planChanges (applyChangeset [pTen] (planChanges [pTen] [mIncFive])) [mIncFive] ≠ [] ∧
    planChanges (applyChangeset [pTen] (planChanges [pTen] [mTagsSetAB])) [mTagsSetAB] ≠ [] ∧
    planChanges (applyChangeset [pTen] (planChanges [pTen] [mExactTen, mExactTwenty]))
      [mExactTen, mExactTwenty] ≠ [] := by
  refine ⟨by decide, by decide, by decide⟩

/-- C3 (amended): planner idempotence holds for modification lists whose specs
are all absolute (numeric `exact`, text/select `set` — the types whose
computed value does not read the current value) and whose fields are pairwise
distinct: applying the planned values and re-running the planner yields the
empty changeset.  The unrestricted claim is false (see the counterexample). -/
theorem planner_idempotent_absolute :
    ∀ (E : List Product) (M : List ModSpec),
      (∀ m ∈ M, absoluteMod m) →
      M.Pairwise (fun a b => a.field ≠ b.field) →
      planChanges (applyChangeset E (planChanges E M)) M = [] := by
  intro E M habs hpw
  show (applyChangeset E (planChanges E M)).flatMap
    (fun p => M.flatMap (fun m => planFor p m)) = []
  refine List.flatMap_eq_nil_iff.mpr ?_
  intro p' hp'
  unfold applyChangeset at hp'
  obtain ⟨p, hp, rfl⟩ := List.mem_map.mp hp'
  refine List.flatMap_eq_nil_iff.mpr ?_
  intro m hm
  have habsm := habs m hm
  unfold absoluteMod at habsm
  cases hg : getFieldDefI m.field with
  | none => simp only [planFor, hg]
  | some fd =>
    rw [hg] at habsm
    rcases getFieldDefI_cases m.field fd hg with
      ⟨hf, hfd⟩ | ⟨hf, hfd⟩ | ⟨hf, hfd⟩ | ⟨hf, hfd⟩ | ⟨hf, hfd⟩ | ⟨hf, hfd⟩ |
      ⟨hf, hfd⟩ | ⟨hf, hfd⟩ | ⟨hf, hfd⟩ | ⟨hf, hfd⟩ | ⟨hf, hfd⟩
    -- price
    · subst hfd
      have ht : m.type = "exact" := by
        rcases habsm with ⟨_, ht⟩ | ⟨hcat, _⟩
        · exact ht
        · rcases hcat with hc | hc <;> exact absurd hc (by decide)
      cases hv : parseFloat m.value with
      | none =>
        exact planFor_variant_none_calc _ _ m hg rfl
          (fun cur => calcValueI_numeric_nan m _ hg rfl hv cur)
      | some v0 =>
        have hpf : priceField m.field := by rw [hf]; exact Or.inl rfl
        refine planFor_variant_idem E M habs hpw p m hp hm _ hg rfl
          (formatFixed2 (applyRounding m.rounding (some v0)))
          (calcValueI_exact_price m _ v0 hg rfl ht hv hpf []) ?_
        intro q v' hacc
        obtain ⟨d', hd'⟩ := applyRounding_some m.rounding v0
        have hne : formatFixed2 (applyRounding m.rounding (some v0)) ≠ [] := by
          rw [hd']
          exact toFixed2_ne_nil _
        have hwr : writtenVRead m.field (formatFixed2 (applyRounding m.rounding (some v0))) =
            some (formatFixed2 (applyRounding m.rounding (some v0))) := by
          rw [hf]
          rfl
        rw [hwr] at hacc
        have hcur : optOr (accessorI m.field v') (str "0") =
            formatFixed2 (applyRounding m.rounding (some v0)) := by
          rw [hacc]
          simp [optOr, hne]
        refine planVariantChange_none_of_noop_numeric q m v'
          (formatFixed2 (applyRounding m.rounding (some v0))) ?_ ?_
        · rw [hcur]
          exact calcValueI_exact_price m _ v0 hg rfl ht hv hpf _
        · rw [hcur]
          refine nEq_refl_of_some _ ?_
          rw [hd']
          exact parseFloat_toFixed2_some _
    -- compareAtPrice
    · subst hfd
      have ht : m.type = "exact" := by
        rcases habsm with ⟨_, ht⟩ | ⟨hcat, _⟩
        · exact ht
        · rcases hcat with hc | hc <;> exact absurd hc (by decide)
      cases hv : parseFloat m.value with
      | none =>
        exact planFor_variant_none_calc _ _ m hg rfl
          (fun cur => calcValueI_numeric_nan m _ hg rfl hv cur)
      | some v0 =>
        have hpf : priceField m.field := by rw [hf]; exact Or.inr (Or.inl rfl)
        refine planFor_variant_idem E M habs hpw p m hp hm _ hg rfl
          (formatFixed2 (applyRounding m.rounding (some v0)))
          (calcValueI_exact_price m _ v0 hg rfl ht hv hpf []) ?_
        intro q v' hacc
        obtain ⟨d', hd'⟩ := applyRounding_some m.rounding v0
        have hne : formatFixed2 (applyRounding m.rounding (some v0)) ≠ [] := by
          rw [hd']
          exact toFixed2_ne_nil _
        have hwr : writtenVRead m.field (formatFixed2 (applyRounding m.rounding (some v0))) =
            some (formatFixed2 (applyRounding m.rounding (some v0))) := by
          rw [hf]
          rfl
        rw [hwr] at hacc
        have hcur : optOr (accessorI m.field v') (str "0") =
            formatFixed2 (applyRounding m.rounding (some v0)) := by
          rw [hacc]
          simp [optOr, hne]
        refine planVariantChange_none_of_noop_numeric q m v'
          (formatFixed2 (applyRounding m.rounding (some v0))) ?_ ?_
        · rw [hcur]
          exact calcValueI_exact_price m _ v0 hg rfl ht hv hpf _
        · rw [hcur]
          refine nEq_refl_of_some _ ?_
          rw [hd']
          exact parseFloat_toFixed2_some _
    -- sku
    · subst hfd
      have ht : m.type = "set" := by
        rcases habsm with ⟨hcat, _⟩ | ⟨_, ht⟩
        · exact absurd hcat (by decide)
        · exact ht
      refine planFor_variant_idem E M habs hpw p m hp hm _ hg rfl m.value
        (calcValueI_set m _ hg (Or.inl rfl) ht []) ?_
      intro q v' hacc
      have hwr : writtenVRead m.field m.value = some m.value := by
        rw [hf]
        show some (jsOrS m.value []) = some m.value
        rw [jsOrS_nil]
      rw [hwr] at hacc
      have hcur : optOr (accessorI m.field v') [] = m.value := by
        rw [hacc]
        exact optOr_some_nil m.value
      refine planVariantChange_none_of_noop_text q m v' m.value ?_ hcur
      rw [hcur]
      exact calcValueI_set m _ hg (Or.inl rfl) ht _
    -- barcode
    · subst hfd
      have ht : m.type = "set" := by
        rcases habsm with ⟨hcat, _⟩ | ⟨_, ht⟩
        · exact absurd hcat (by decide)
        · exact ht
      refine planFor_variant_idem E M habs hpw p m hp hm _ hg rfl m.value
        (calcValueI_set m _ hg (Or.inl rfl) ht []) ?_
      intro q v' hacc
      have hwr : writtenVRead m.field m.value = some m.value := by
        rw [hf]
        show some (jsOrS m.value []) = some m.value
        rw [jsOrS_nil]
      rw [hwr] at hacc
      have hcur : optOr (accessorI m.field v') [] = m.value := by
        rw [hacc]
        exact optOr_some_nil m.value
      refine planVariantChange_none_of_noop_text q m v' m.value ?_ hcur
      rw [hcur]
      exact calcValueI_set m _ hg (Or.inl rfl) ht _
    -- weight
    · subst hfd
      have ht : m.type = "exact" := by
        rcases habsm with ⟨_, ht⟩ | ⟨hcat, _⟩
        · exact ht
        · rcases hcat with hc | hc <;> exact absurd hc (by decide)
      cases hv : parseFloat m.value with
      | none =>
        exact planFor_variant_none_calc _ _ m hg rfl
          (fun cur => calcValueI_numeric_nan m _ hg rfl hv cur)
      | some v0 =>
        have hpf : ¬ priceField m.field := by rw [hf]; decide
        obtain ⟨w, hw, hwm⟩ := formatPlain_parse v0
        refine planFor_variant_idem E M habs hpw p m hp hm _ hg rfl
          (formatPlain (some v0))
          (calcValueI_exact_plain m _ v0 hg rfl ht hv hpf []) ?_
        intro q v' hacc
        have hwr : writtenVRead m.field (formatPlain (some v0)) = some (decStr w) := by
          rw [hf]
          show some (match parseFloat (formatPlain (some v0)) with
            | some w => decStr w | none => str "0") = some (decStr w)
          rw [hw]
        rw [hwr] at hacc
        have hcur : optOr (accessorI m.field v') (str "0") = decStr w := by
          rw [hacc]
          simp [optOr, decStr_ne_nil w]
        refine planVariantChange_none_of_noop_numeric q m v'
          (formatPlain (some v0)) ?_ ?_
        · rw [hcur]
          exact calcValueI_exact_plain m _ v0 hg rfl ht hv hpf _
        · rw [hcur]
          exact nEq_decStr_parse _ w hw hwm
    -- title
    · subst hfd
      have ht : m.type = "set" := by
        rcases habsm with ⟨hcat, _⟩ | ⟨_, ht⟩
        · exact absurd hcat (by decide)
        · exact ht
      refine planFor_product_idem E M habs hpw p m hp hm _ hg rfl
        (by rw [hf]; decide) ?_ m.value (calcValueI_set m _ hg (Or.inl rfl) ht [])
      intro nv q
      rw [hf]
      simp [writeProductField, productProp]
    -- vendor
    · subst hfd
      have ht : m.type = "set" := by
        rcases habsm with ⟨hcat, _⟩ | ⟨_, ht⟩
        · exact absurd hcat (by decide)
        · exact ht
      refine planFor_product_idem E M habs hpw p m hp hm _ hg rfl
        (by rw [hf]; decide) ?_ m.value (calcValueI_set m _ hg (Or.inl rfl) ht [])
      intro nv q
      rw [hf]
      simp [writeProductField, productProp]
    -- productType
    · subst hfd
      have ht : m.type = "set" := by
        rcases habsm with ⟨hcat, _⟩ | ⟨_, ht⟩
        · exact absurd hcat (by decide)
        · exact ht
      refine planFor_product_idem E M habs hpw p m hp hm _ hg rfl
        (by rw [hf]; decide) ?_ m.value (calcValueI_set m _ hg (Or.inl rfl) ht [])
      intro nv q
      rw [hf]
      simp [writeProductField, productProp]
    -- tags: excluded by absoluteMod
    · subst hfd
      rcases habsm with ⟨hcat, _⟩ | ⟨hcat, _⟩
      · exact absurd hcat (by decide)
      · rcases hcat with hc | hc <;> exact absurd hc (by decide)
    -- status
    · subst hfd
      have ht : m.type = "set" := by
        rcases habsm with ⟨hcat, _⟩ | ⟨_, ht⟩
        · exact absurd hcat (by decide)
        · exact ht
      refine planFor_product_idem E M habs hpw p m hp hm _ hg rfl
        (by rw [hf]; decide) ?_ m.value (calcValueI_set m _ hg (Or.inr rfl) ht [])
      intro nv q
      rw [hf]
      simp [writeProductField, productProp]
    -- templateSuffix
    · subst hfd
      have ht : m.type = "set" := by
        rcases habsm with ⟨hcat, _⟩ | ⟨_, ht⟩
        · exact absurd hcat (by decide)
        · exact ht
      refine planFor_product_idem E M habs hpw p m hp hm _ hg rfl
        (by rw [hf]; decide) ?_ m.value (calcValueI_set m _ hg (Or.inl rfl) ht [])
      intro nv q
      rw [hf]
      simp [writeProductField, productProp, optOr_some_nil]

/-- Witness for `planner_idempotent_absolute`: an exact price edit to 20
converges after one application — replanning yields no changes. -/
theorem planner_idempotent_absolute_witness :
    planChanges (applyChangeset [pTen] (planChanges [pTen] [mExactTwenty]))
      [mExactTwenty] = [] :=
  planner_idempotent_absolute [pTen] [mExactTwenty]
    (by
      intro m hm
      rw [List.mem_singleton] at hm
      subst hm
      exact Or.inl ⟨rfl, rfl⟩)
    (by simp)
